import Mathlib

/-!
A shallow embedding of `reposx.go`, the reposx package-manager client.

The program is sequential I/O glue, so the embedding is explicit state passing.  Every
function of `reposx.go` becomes a Lean function of the same name that takes the
environment `Env` of the run and the current `State`, and returns its Go result together
with the state it leaves behind.  Go errors are `Except String`: the string is the
message of the error.

* `Env` holds what the program cannot control: `GOARCH`, the home directory, what the
  network answers, what a directory listing returns, how the XML and tar.gz decoders of
  the standard library decode a byte string, and which calls fail.
* `State` holds the file system (a map from path to node), the sequence of side-effecting
  calls made so far (`trace`) and what was printed.

The standard library is modelled as follows.

* `filepath.Join` and `filepath.Clean` are implemented for a Unix host.
* A call that changes the file system fails when the environment says so (`Env.fault`,
  which sees the calls made so far) or when the file system itself forbids it (a
  directory where a file is needed, a file where a directory is needed, a missing
  path or parent directory); when it succeeds its effect is the documented one.  Modes
  are recorded as given, without a umask.
* `os.Stat`, `os.Open` and the reads of an open file fail when the environment says so
  (`Env.readFault`: permissions, resource limits, I/O errors); `os.Stat` and `os.Open`
  also fail when the path does not exist.
* An open file is a `Reader`: the path and what reading it to the end gives.  It is read
  while the program runs: as long as the file still holds the bytes it held when it was
  opened, a read yields those bytes; once the file has been written to, a later read is
  either still served with the bytes the file had (they were buffered) or fails, as the
  environment says (`Env.torn`), and a failing read still delivers some bytes of the
  entry being copied (`Env.served`).
* A body or a tar entry may end in a read error after some of its bytes; `io.Copy` then
  has written those bytes and returns the error.
* `http.Get` answers what the environment says, except that the empty URL is refused
  without a connection, as the Go client does.
* `os.ReadDir` answers what the environment says; listings are an input of the model.
-/

set_option linter.dupNamespace false

namespace Reposx

/-! ## Data model (reposx.go 23-43) -/

/-- Go `type URL struct`: the character data of a `url` element. -/
structure URL where
  URL : String
deriving DecidableEq, Repr

/-- The anonymous `struct { URL URL }` used for the `amd` and `arm` children. -/
structure ArchSlot where
  URL : URL
deriving DecidableEq, Repr

/-- Go `type Package struct`. -/
structure Package where
  Name : String
  AMD : ArchSlot
  ARM : ArchSlot
deriving DecidableEq, Repr

/-- Go `type Packages struct`; `XMLName` is the name of the root element. -/
structure Packages where
  XMLName : String
  Packages : List Package
deriving DecidableEq, Repr

/-- Go `const base_url`. -/
def base_url : String := "http://93.100.25.80:8080/reposx/"

/-! ## The standard library: paths -/

/-- Split a path at every `/`. -/
def splitSlash : List Char → List (List Char)
  | [] => [[]]
  | c :: cs =>
    match splitSlash cs with
    | [] => [[]]
    | x :: xs => if c = '/' then [] :: x :: xs else (c :: x) :: xs

/-- One step of `filepath.Clean`: empty and `.` elements vanish, `..` removes the element
before it, a `..` that has nothing to remove is dropped in a rooted path and kept in a
relative one. -/
def cleanStep (rooted : Bool) (stack : List (List Char)) (comp : List Char) :
    List (List Char) :=
  if comp = [] ∨ comp = ['.'] then stack
  else if comp = ['.', '.'] then
    match stack.getLast? with
    | some top => if top = ['.', '.'] then stack ++ [comp] else stack.dropLast
    | none => if rooted then stack else stack ++ [comp]
  else stack ++ [comp]

/-- Elements joined by `/`. -/
def joinSlash : List (List Char) → List Char
  | [] => []
  | [x] => x
  | x :: y :: ys => x ++ '/' :: joinSlash (y :: ys)

/-- Go `filepath.Clean` on a Unix host. -/
def Clean (path : String) : String :=
  let rooted : Bool := path.data.head? = some '/'
  let body := joinSlash ((splitSlash path.data).foldl (cleanStep rooted) [])
  if rooted then ⟨'/' :: body⟩ else if body = [] then "." else ⟨body⟩

/-- Go `filepath.Join`: empty elements are ignored, the rest is joined by `/` and cleaned;
the result is empty when every element is. -/
def Join (elem : List String) : String :=
  match elem.filter (fun e => e ≠ "") with
  | [] => ""
  | es => Clean ⟨joinSlash (es.map String.data)⟩

/-- A stack every prefix of which `Clean` maps to itself. -/
def Stable (rooted : Bool) (K : List (List Char)) : Prop :=
  (∀ n, (K.take n).foldl (cleanStep rooted) [] = K.take n) ∧ ∀ c ∈ K, c ≠ [] ∧ '/' ∉ c

/-! ## The world -/

/-- A node of the file system: a regular file with its contents and mode, or a directory. -/
inductive Node where
  | file (content : String) (mode : Nat)
  | dir (mode : Nat)
deriving DecidableEq, Repr

/-- The side-effecting calls the program makes: the network request and the calls that
change the file system.  Reads (`os.Stat`, `os.Open`, `os.ReadDir`) are not effects. -/
inductive Call where
  | httpGet (url : String)
  | mkdirAll (path : String) (perm : Nat)
  | create (path : String)
  | copy (path : String) (data : String)
  | chmod (path : String) (mode : Nat)
  | remove (path : String)
deriving DecidableEq, Repr

/-- The reads of the file system the environment can refuse: `os.Stat`, `os.Open`, and a
read of an open file. -/
inductive Read where
  | stat (path : String)
  | open (path : String)
  | read (path : String)
deriving DecidableEq, Repr

/-- Go `os.DirEntry`, as far as the program looks at it. -/
structure DirEntry where
  Name : String
  IsDir : Bool
deriving DecidableEq, Repr

/-- Go `tar.Header`, as far as the program looks at it. -/
structure Header where
  Name : String
  Typeflag : Char
deriving DecidableEq, Repr

/-- One entry of a tar stream: the header `tarReader.Next` returns, the bytes the reader
then yields, and the error their reading ends with, if any (a truncated or corrupt
entry). -/
structure TarEntry where
  header : Header
  data : String
  dataErr : Option String
deriving DecidableEq, Repr

/-- What `tar.Reader` yields for an archive: the entries, and how the stream ends
(`none` is `io.EOF`, `some err` a read error). -/
structure TarStream where
  entries : List TarEntry
  tail : Option String
deriving DecidableEq, Repr

/-- The body of an HTTP response: the bytes that can be read, and the error their reading
ends with, if any (a connection that breaks). -/
structure Body where
  data : String
  err : Option String
deriving DecidableEq, Repr

/-- Go `*os.File` opened for reading: the path, and what reading the file to its end gives
as long as nothing writes to it (its bytes, or the read error of a directory). -/
structure Reader where
  path : String
  bytes : Except String String

/-- Go `tar.TypeReg`. -/
def TypeReg : Char := '0'

/-- Go `tar.TypeDir`. -/
def TypeDir : Char := '5'

/-- The environment of a run: everything the program reads from outside and cannot
change. -/
structure Env where
  /-- Go runtime.GOARCH -/
  goarch : String
  /-- Go os.UserHomeDir: the home directory, or the error -/
  home : Except String String
  /-- Go http.Get: for a URL, a transport error or the response body -/
  net : String → Except String Body
  /-- Go os.ReadDir: the listing of a path, or the error -/
  readDir : String → Except String (List DirEntry)
  /-- Go xml.NewDecoder(r).Decode on the bytes of r -/
  decodeXML : String → Except String Packages
  /-- Go gzip.NewReader followed by tar.NewReader on the bytes of a stream -/
  untar : String → Except String TarStream
  /-- Failures of mutating calls the model does not explain (permissions, full disk, ...):
  given the calls made so far, the error the next call fails with, if any -/
  fault : List Call → Call → Option String
  /-- Failures of os.Stat, os.Open and of reads of an open file that the model does not
  explain (permissions, I/O errors, ...): given the calls made so far, the error the read
  fails with, if any -/
  readFault : List Call → Read → Option String
  /-- Reads of an open file that has been written to since it was opened: given the calls
  made so far, the error the next read fails with, or none when it is still served, as it
  is when the rest of the file was buffered before the write -/
  torn : List Call → Option String
  /-- The number of bytes of an entry that are still delivered when a read of the archive
  fails while the entry is copied -/
  served : List Call → Nat

/-- The state of a run. -/
structure State where
  /-- The file system -/
  fs : String → Option Node
  /-- The side-effecting calls made so far, oldest first -/
  trace : List Call
  /-- Everything written to standard output, oldest first -/
  stdout : List String

/-- Record a call. -/
def State.log (s : State) (c : Call) : State :=
  { s with trace := s.trace ++ [c] }

/-- Go `fmt.Print`. -/
def State.print (s : State) (text : String) : State :=
  { s with stdout := s.stdout ++ [text] }

/-- Replace (or delete, with `none`) the node at a path. -/
def State.setNode (s : State) (path : String) (n : Option Node) : State :=
  { s with fs := fun q => if q = path then n else s.fs q }

/-! ## The standard library: network and file system -/

/-- Whether a path holds a directory. -/
def isDirNode : Option Node → Bool
  | some (.dir _) => true
  | _ => false

/-- Whether a path holds a regular file. -/
def isFileNode : Option Node → Bool
  | some (.file _ _) => true
  | _ => false

/-- The error `http.Get` returns for the empty URL. -/
def emptyURLError : String := "Get \"\": unsupported protocol scheme \"\""

/-- Go `http.Get`.  The empty URL has no protocol scheme and is refused by the client
before any connection is made. -/
def httpGet (env : Env) (url : String) (s : State) : Except String Body × State :=
  let s1 := s.log (.httpGet url)
  if url = "" then (.error emptyURLError, s1)
  else (env.net url, s1)

/-- The paths `os.MkdirAll path` has to turn into directories: every proper ancestor of
`path`, outermost first, then `path`. -/
def ancestors (acc : List Char) : List Char → List String
  | [] => [⟨acc⟩]
  | c :: cs =>
    if c = '/' ∧ acc ≠ [] then ⟨acc⟩ :: ancestors (acc ++ [c]) cs
    else ancestors (acc ++ [c]) cs

/-- Create the listed directories in turn; one that is already a directory is left alone,
one that is a file stops the chain. -/
def mkdirChain (perm : Nat) : List String → State → Except String Unit × State
  | [], s => (.ok (), s)
  | q :: qs, s =>
    match s.fs q with
    | some (.dir _) => mkdirChain perm qs s
    | some (.file _ _) => (.error ("mkdir " ++ q ++ ": not a directory"), s)
    | none => mkdirChain perm qs (s.setNode q (some (.dir perm)))

/-- Go `os.MkdirAll`: nothing to do when `path` is a directory, an error when it is a file,
otherwise the missing ancestors and `path` are created. -/
def MkdirAll (env : Env) (path : String) (perm : Nat) (s : State) :
    Except String Unit × State :=
  let s1 := s.log (.mkdirAll path perm)
  match env.fault s.trace (.mkdirAll path perm) with
  | some err => (.error err, s1)
  | none =>
    match s.fs path with
    | some (.dir _) => (.ok (), s1)
    | some (.file _ _) => (.error ("mkdir " ++ path ++ ": not a directory"), s1)
    | none => mkdirChain perm (ancestors [] path.data) s1

/-- Whether the directory a file at `path` is to live in exists (a path of one element
lives in the root or in the working directory, which exist). -/
def parentIsDir (path : String) (s : State) : Bool :=
  match (ancestors [] path.data).dropLast.getLast? with
  | none => true
  | some q => isDirNode (s.fs q)

/-- Go `os.Create`: the file is created with mode 0666, or truncated when it exists; the
directory it is to live in must exist. -/
def Create (env : Env) (path : String) (s : State) : Except String Unit × State :=
  let s1 := s.log (.create path)
  match env.fault s.trace (.create path) with
  | some err => (.error err, s1)
  | none =>
    if parentIsDir path s = false then
      (.error ("open " ++ path ++ ": no such file or directory"), s1)
    else
      match s.fs path with
      | some (.dir _) => (.error ("open " ++ path ++ ": is a directory"), s1)
      | some (.file _ mode) => (.ok (), s1.setNode path (some (.file "" mode)))
      | none => (.ok (), s1.setNode path (some (.file "" 0o666)))

/-- Go `io.Copy(out, src)` where `out` is the file just created at `path` and `src`
yields `data` and then ends, with `readErr` when its reading fails: the bytes read are
written, and the first error met is returned. -/
def Copy (env : Env) (path : String) (data : String) (readErr : Option String) (s : State) :
    Except String Unit × State :=
  let s1 := s.log (.copy path data)
  match env.fault s.trace (.copy path data) with
  | some err => (.error err, s1)
  | none =>
    match s.fs path with
    | some (.file _ mode) =>
      match readErr with
      | some err => (.error err, s1.setNode path (some (.file data mode)))
      | none => (.ok (), s1.setNode path (some (.file data mode)))
    | _ => (.error ("write " ++ path ++ ": file already closed"), s1)

/-- Go `os.Chmod`. -/
def Chmod (env : Env) (path : String) (mode : Nat) (s : State) :
    Except String Unit × State :=
  let s1 := s.log (.chmod path mode)
  match env.fault s.trace (.chmod path mode) with
  | some err => (.error err, s1)
  | none =>
    match s.fs path with
    | some (.file content _) => (.ok (), s1.setNode path (some (.file content mode)))
    | some (.dir _) => (.ok (), s1.setNode path (some (.dir mode)))
    | none => (.error ("chmod " ++ path ++ ": no such file or directory"), s1)

/-- Go `os.Remove`.  The program only removes the archive it downloaded, a regular file; a
directory is removed as an empty one is. -/
def Remove (env : Env) (path : String) (s : State) : Except String Unit × State :=
  let s1 := s.log (.remove path)
  match env.fault s.trace (.remove path) with
  | some err => (.error err, s1)
  | none =>
    match s.fs path with
    | some _ => (.ok (), s1.setNode path none)
    | none => (.error ("remove " ++ path ++ ": no such file or directory"), s1)

/-- Go `os.Stat`, as far as the program looks at it: whether the path can be stat'ed. -/
def Stat (env : Env) (path : String) (s : State) : Except String Unit :=
  match env.readFault s.trace (.stat path) with
  | some err => .error err
  | none =>
    match s.fs path with
    | some _ => .ok ()
    | none => .error ("stat " ++ path ++ ": no such file or directory")

/-- Go `os.Open`.  A directory can be opened; reading it fails. -/
def Open (env : Env) (path : String) (s : State) : Except String Reader :=
  match env.readFault s.trace (.open path) with
  | some err => .error err
  | none =>
    match s.fs path with
    | some (.file content _) => .ok ⟨path, .ok content⟩
    | some (.dir _) => .ok ⟨path, .error ("read " ++ path ++ ": is a directory")⟩
    | none => .error ("open " ++ path ++ ": no such file or directory")

/-- The error a read of an open file fails with, if it fails: the environment can refuse
any read; a directory cannot be read; a file that still holds the bytes it was opened
with is read; for a file that has been written to the environment decides. -/
def readError (env : Env) (r : Reader) (s : State) : Option String :=
  match env.readFault s.trace (.read r.path) with
  | some err => some err
  | none =>
    match r.bytes with
    | .error err => some err
    | .ok bytes =>
      match s.fs r.path with
      | some (.file content _) => if content = bytes then none else env.torn s.trace
      | _ => env.torn s.trace

/-! ## The program (reposx.go 45-299) -/

/-- Go `ensureDir` (reposx.go 45-47). -/
def ensureDir (env : Env) (path : String) (s : State) : Except String Unit × State :=
  MkdirAll env path 0o755 s

/-- Go `getLocalDir` (reposx.go 49-55). -/
def getLocalDir (env : Env) : Except String String :=
  match env.home with
  | .error err => .error err
  | .ok homeDir => .ok (Join [homeDir, ".local", "reposx"])

/-- Go `downloadFile` (reposx.go 57-73). -/
def downloadFile (env : Env) (url filepath : String) (s : State) :
    Except String Unit × State :=
  let s := s.print ("[...] downloading " ++ url ++ "\n")
  match httpGet env url s with
  | (.error err, s) => (.error err, s)
  | (.ok resp, s) =>
    match Create env filepath s with
    | (.error err, s) => (.error err, s)
    | (.ok (), s) => Copy env filepath resp.data resp.err s

/-- The body of the loop of `extractTarGz` for one header (reposx.go 92-111): a directory
entry is created, a regular file is created, filled from the stream and made executable,
any other type falls through the `switch`. -/
def extractEntry (env : Env) (gzipStream : Reader) (destPath : String) (e : TarEntry)
    (s : State) : Except String Unit × State :=
  let path := Join [destPath, e.header.Name]
  if e.header.Typeflag = TypeDir then
    MkdirAll env path 0o755 s
  else if e.header.Typeflag = TypeReg then
    match Create env path s with
    | (.error err, s) => (.error err, s)
    | (.ok (), s) =>
      let copied :=
        match readError env gzipStream s with
        | some err => Copy env path ⟨e.data.data.take (env.served s.trace)⟩ (some err) s
        | none => Copy env path e.data e.dataErr s
      match copied with
      | (.error err, s) => (.error err, s)
      | (.ok (), s) => Chmod env path 0o755 s
  else (.ok (), s)

/-- The loop of `extractTarGz` (reposx.go 83-113): `tarReader.Next` reads the next header
from the stream; entries are handled in stream order until `io.EOF`; the first error ends
the loop. -/
def extractLoop (env : Env) (gzipStream : Reader) (destPath : String) :
    List TarEntry → Option String → State → Except String Unit × State
  | [], tail, s =>
    match readError env gzipStream s with
    | some err => (.error err, s)
    | none =>
      match tail with
      | none => (.ok (), s)
      | some err => (.error err, s)
  | e :: rest, tail, s =>
    match readError env gzipStream s with
    | some err => (.error err, s)
    | none =>
      match extractEntry env gzipStream destPath e s with
      | (.error err, s) => (.error err, s)
      | (.ok (), s) => extractLoop env gzipStream destPath rest tail s

/-- Go `extractTarGz` (reposx.go 75-114): `gzip.NewReader` reads the header of the
stream, then the loop runs over the entries the stream decodes to. -/
def extractTarGz (env : Env) (gzipStream : Reader) (destPath : String) (s : State) :
    Except String Unit × State :=
  match readError env gzipStream s, gzipStream.bytes with
  | some err, _ => (.error err, s)
  | none, .error err => (.error err, s)
  | none, .ok bytes =>
    match env.untar bytes with
    | .error err => (.error err, s)
    | .ok stream => extractLoop env gzipStream destPath stream.entries stream.tail s

/-- Go `xml.NewDecoder(xmlFile).Decode(&packages)`: the file is read and decoded. -/
def decodeFile (env : Env) (xmlFile : Reader) (s : State) : Except String Packages :=
  match readError env xmlFile s, xmlFile.bytes with
  | some err, _ => .error err
  | none, .error err => .error err
  | none, .ok doc => env.decodeXML doc

/-- The cached branch of `downloadAndParseXML` (reposx.go 131-141). -/
def readCachedXML (env : Env) (xmlPath : String) (s : State) :
    Except String Packages × State :=
  match Open env xmlPath s with
  | .error err => (.error err, s)
  | .ok xmlFile =>
    match decodeFile env xmlFile s with
    | .error err => (.error err, s)
    | .ok packages => (.ok packages, s)

/-- The download branch of `downloadAndParseXML` (reposx.go 145-161). -/
def fetchXML (env : Env) (xmlPath : String) (s : State) : Except String Packages × State :=
  match downloadFile env (base_url ++ "index.xml") xmlPath s with
  | (.error err, s) => (.error err, s)
  | (.ok (), s) =>
    match Open env xmlPath s with
    | .error err => (.error err, s)
    | .ok xmlFile =>
      match decodeFile env xmlFile s with
      | .error err => (.error err, s)
      | .ok packages => (.ok packages, s)

/-- Go `downloadAndParseXML` (reposx.go 116-162). -/
def downloadAndParseXML (env : Env) (force : Bool) (s : State) :
    Except String Packages × State :=
  match getLocalDir env with
  | .error err => (.error err, s)
  | .ok localDir =>
    match ensureDir env localDir s with
    | (.error err, s) => (.error err, s)
    | (.ok (), s) =>
      let xmlPath := Join [localDir, "index.xml"]
      if force = false then
        match Stat env xmlPath s with
        | .ok () => readCachedXML env xmlPath s
        | .error _ => fetchXML env xmlPath s
      else fetchXML env xmlPath s

/-- The search loop of `installPackage` (reposx.go 166-172): the first entry whose name is
`packageName`. -/
def findPackage (packageName : String) : List Package → Option Package
  | [] => none
  | pkg :: rest => if pkg.Name = packageName then some pkg else findPackage packageName rest

/-- Go `installPackage` (reposx.go 164-224). -/
def installPackage (env : Env) (packageName : String) (packages : Packages) (s : State) :
    Except String Unit × State :=
  match findPackage packageName packages.Packages with
  | none => (.error ("package " ++ packageName ++ " not found"), s)
  | some targetPackage =>
    let arch := env.goarch
    let downloadURL : Except String String :=
      if arch = "386" then .ok targetPackage.AMD.URL.URL
      else if arch = "arm" then .ok targetPackage.ARM.URL.URL
      else if arch = "amd64" then .ok targetPackage.AMD.URL.URL
      else if arch = "arm64" then .ok targetPackage.ARM.URL.URL
      else .error ("[ ! ] unsupported architecture: " ++ arch)
    match downloadURL with
    | .error err => (.error err, s)
    | .ok downloadURL =>
      match getLocalDir env with
      | .error err => (.error err, s)
      | .ok localDir =>
        let packagePath := Join [localDir, packageName ++ ".tar.gz"]
        match downloadFile env downloadURL packagePath s with
        | (.error err, s) => (.error err, s)
        | (.ok (), s) =>
          let s := s.print ("[...] extracting " ++ packagePath ++ "\n")
          match Open env packagePath s with
          | .error err => (.error err, s)
          | .ok file =>
            let extractPath := Join [localDir, packageName]
            match ensureDir env extractPath s with
            | (.error err, s) => (.error err, s)
            | (.ok (), s) =>
              match extractTarGz env file extractPath s with
              | (.error err, s) => (.error err, s)
              | (.ok (), s) => Remove env packagePath s

/-- Go `getPackagePaths` (reposx.go 226-245). -/
def getPackagePaths (env : Env) : Except String String :=
  match getLocalDir env with
  | .error err => .error err
  | .ok localDir =>
    match env.readDir localDir with
    | .error err => .error err
    | .ok entries =>
      let paths := entries.foldl
        (fun paths entry => if entry.IsDir then paths ++ [Join [localDir, entry.Name]] else paths)
        ([] : List String)
      .ok (String.intercalate ":" paths)

/-- The usage text `main` prints when no command is given (reposx.go 249-253). -/
def usageText : List String :=
  [ "reposx by aceinet (2022-2025)\n",
    "usage:\n",
    "  update              Update package list\n",
    "  install <package>   Install package\n",
    "  paths               Get package paths for shells\n" ]

/-- Go `main` (reposx.go 247-299) on the argument vector `os.Args`: the exit status and the
state the process leaves behind. -/
def main (env : Env) (args : List String) (s : State) : Nat × State :=
  match args with
  | [] => (1, { s with stdout := s.stdout ++ usageText })
  | [_] => (1, { s with stdout := s.stdout ++ usageText })
  | _ :: command :: rest =>
    if command = "update" then
      match downloadAndParseXML env true s with
      | (.error err, s) => (1, s.print ("[ ! ] Error updating package list: " ++ err ++ "\n"))
      | (.ok _, s) => (0, s.print "[...] Package list updated successfully\n")
    else if command = "install" then
      match rest with
      | [packageName] =>
        match downloadAndParseXML env false s with
        | (.error err, s) => (1, s.print ("[ ! ] Error reading package list: " ++ err ++ "\n"))
        | (.ok packages, s) =>
          match installPackage env packageName packages s with
          | (.error err, s) =>
            (1, s.print ("[ ! ] Error installing package " ++ packageName ++ ": " ++ err ++ "\n"))
          | (.ok (), s) =>
            (0, s.print ("[...] Package " ++ packageName ++ " installed successfully\n"))
      | _ => (1, s.print "usage: install <package>\n")
    else if command = "paths" then
      match getPackagePaths env with
      | .error err => (1, s.print ("[ ! ] Error getting package paths: " ++ err ++ "\n"))
      | .ok paths => (0, s.print (paths ++ "\n"))
    else (1, s.print ("unknown command: " ++ command ++ "\n"))

/-! ## Vocabulary of the statements -/

/-- The calls that change the file system without removing anything. -/
def Call.isLocal : Call → Bool
  | .mkdirAll _ _ => true
  | .create _ => true
  | .copy _ _ => true
  | .chmod _ _ => true
  | _ => false

/-- The requests among the calls. -/
def Call.isGet : Call → Bool
  | .httpGet _ => true
  | _ => false

/-- The relation between the file system before and after a stretch of the program that
removes nothing: a path that exists still exists, a directory is still a directory, a
file is still a file. -/
structure Keeps (s t : State) : Prop where
  keeps : ∀ p, s.fs p ≠ none → t.fs p ≠ none
  dirs : ∀ p, isDirNode (s.fs p) = true → isDirNode (t.fs p) = true
  files : ∀ p, isFileNode (s.fs p) = true → isFileNode (t.fs p) = true

/-- The relation between the state before and after a stretch of the program that only
creates and writes: calls are only added to the trace, none of them is a request or a
removal, and the file system keeps what it had. -/
structure Grows (s t : State) extends Keeps s t : Prop where
  trace : ∃ cs, t.trace = s.trace ++ cs ∧ ∀ c ∈ cs, c.isLocal = true

/-- The mode of the file `os.Create` leaves at `path`: the mode the file had, 0666 for a
new file. -/
def createMode (path : String) (s : State) : Nat :=
  match s.fs path with
  | some (.file _ mode) => mode
  | _ => 0o666

/-- The state a successful `os.Create` of `path` leaves: the call is recorded and the path
holds an empty file. -/
def created (path : String) (s : State) : State :=
  (s.log (.create path)).setNode path (some (.file "" (createMode path s)))

/-- When `os.MkdirAll` can succeed: the environment lets the call through, and the path is
a directory already, or it does not exist and no file stands where a directory is
needed. -/
def canMkdirAll (env : Env) (path : String) (perm : Nat) (s : State) : Bool :=
  decide (env.fault s.trace (.mkdirAll path perm) = none) &&
    (isDirNode (s.fs path) ||
      (decide (s.fs path = none) &&
        (ancestors [] path.data).all (fun q => !isFileNode (s.fs q))))

/-- When `os.Create` can succeed: the environment lets the call through, the directory of
the file exists, and the path is not a directory. -/
def canCreate (env : Env) (path : String) (s : State) : Bool :=
  decide (env.fault s.trace (.create path) = none) && parentIsDir path s &&
    !isDirNode (s.fs path)

/-- When a regular-file entry can be extracted to `path` from the open archive: the file
can be created, the archive can still be read after that, the bytes of the entry are all
there, and the environment lets the write and the `chmod` through. -/
def canExtractFile (env : Env) (gzipStream : Reader) (path : String) (e : TarEntry)
    (s : State) : Bool :=
  canCreate env path s && decide (readError env gzipStream (created path s) = none) &&
    decide (e.dataErr = none) &&
    decide (env.fault (s.trace ++ [.create path]) (.copy path e.data) = none) &&
    decide (env.fault (s.trace ++ [.create path, .copy path e.data]) (.chmod path 0o755)
      = none)

/-- The state a successful download of `url` into `path` leaves: the request, the creation
and the write are recorded, the message is printed, and the path holds the body. -/
def downloaded (url path body : String) (s : State) : State where
  fs := fun q => if q = path then some (.file body (createMode path s)) else s.fs q
  trace := s.trace ++ [.httpGet url, .create path, .copy path body]
  stdout := s.stdout ++ ["[...] downloading " ++ url ++ "\n"]

/-- The state the extraction of a regular file with the given bytes to `path` leaves: the
creation, the write and the `chmod` are recorded, and the path holds the bytes with mode
0755. -/
def extractedFile (path data : String) (s : State) : State where
  fs := fun q => if q = path then some (.file data 0o755) else s.fs q
  trace := s.trace ++ [.create path, .copy path data, .chmod path 0o755]
  stdout := s.stdout

/-- The Local Store root, `<home>/.local/reposx`. -/
def storeRoot (home : String) : String :=
  Join [home, ".local", "reposx"]

/-- The cache file, `<root>/index.xml`. -/
def cachePath (home : String) : String :=
  Join [Join [home, ".local", "reposx"], "index.xml"]

/-- The temporary archive of a package, `<root>/<name>.tar.gz`. -/
def archivePath (home packageName : String) : String :=
  Join [Join [home, ".local", "reposx"], packageName ++ ".tar.gz"]

/-- The directory of a package, `<root>/<name>`. -/
def packageDir (home packageName : String) : String :=
  Join [Join [home, ".local", "reposx"], packageName]

/-- When every entry of an archive can be extracted into `destPath`, one after the other:
each header can be read, each directory entry can be created and each regular-file entry
can be extracted in the state its predecessors left, and the end of the archive can be
read. -/
def canExtractAll (env : Env) (gzipStream : Reader) (destPath : String) :
    List TarEntry → State → Bool
  | [], s => decide (readError env gzipStream s = none)
  | e :: rest, s =>
    decide (readError env gzipStream s = none) &&
      (if e.header.Typeflag = TypeDir then
        canMkdirAll env (Join [destPath, e.header.Name]) 0o755 s &&
          canExtractAll env gzipStream destPath rest
            (MkdirAll env (Join [destPath, e.header.Name]) 0o755 s).2
      else if e.header.Typeflag = TypeReg then
        canExtractFile env gzipStream (Join [destPath, e.header.Name]) e s &&
          canExtractAll env gzipStream destPath rest
            (extractedFile (Join [destPath, e.header.Name]) e.data s)
      else canExtractAll env gzipStream destPath rest s)

/-- The entries `extractTarGz` acts on: directories and regular files. -/
def supported (e : TarEntry) : Bool :=
  e.header.Typeflag = TypeDir || e.header.Typeflag = TypeReg

/-- The calls the extraction of one entry into `destPath` consists of, as the
specification describes them: a directory entry is created, a regular file is created,
written and made executable (mode 0755), any other entry is skipped. -/
def entryCalls (destPath : String) (e : TarEntry) : List Call :=
  if e.header.Typeflag = TypeDir then [.mkdirAll (Join [destPath, e.header.Name]) 0o755]
  else if e.header.Typeflag = TypeReg then
    [.create (Join [destPath, e.header.Name]),
     .copy (Join [destPath, e.header.Name]) e.data,
     .chmod (Join [destPath, e.header.Name]) 0o755]
  else []

/-- The URL slot of an entry for a host architecture, as the specification describes it:
the two variants of each processor family share the slot of the family, any other
architecture has none. -/
def archSlot (arch : String) (pkg : Package) : Option String :=
  if arch = "386" ∨ arch = "amd64" then some pkg.AMD.URL.URL
  else if arch = "arm" ∨ arch = "arm64" then some pkg.ARM.URL.URL
  else none

/-- The resolution errors of `installPackage` (class (d) of the specification): the two
errors its resolution steps create, `package <name> not found` for a name that is not in
the index (reposx.go 175) and `[ ! ] unsupported architecture: <arch>` for an
architecture without a URL slot (reposx.go 191). -/
def isResolutionError (err : String) : Bool :=
  ("package ".data.isPrefixOf err.data && " not found".data.isSuffixOf (err.data.drop 8))
    || "[ ! ] unsupported architecture: ".data.isPrefixOf err.data

/-! ## Example runs -/

/-- The entries of the example archive: a directory, a symbolic link and a regular file. -/
def demoEntries : List TarEntry :=
  [⟨⟨"bin", TypeDir⟩, "", none⟩, ⟨⟨"ln", '2'⟩, "", none⟩, ⟨⟨"bin/tool", TypeReg⟩, "#!", none⟩]

/-- The entries of an archive without directory entries: a symbolic link, a regular file
in a subdirectory, and a regular file. -/
def nestedEntries : List TarEntry :=
  [⟨⟨"ln", '2'⟩, "", none⟩, ⟨⟨"sub/file", TypeReg⟩, "x", none⟩, ⟨⟨"after", TypeReg⟩, "y", none⟩]

/-- The index of the example repository: `foo` for both families, `bar` for ARM only,
and a second entry named `foo`. -/
def demoIndex : Packages :=
  ⟨"packages",
    [⟨"foo", ⟨⟨"u"⟩⟩, ⟨⟨"v"⟩⟩⟩, ⟨"bar", ⟨⟨""⟩⟩, ⟨⟨"v"⟩⟩⟩, ⟨"foo", ⟨⟨"w"⟩⟩, ⟨⟨"w"⟩⟩⟩]⟩

/-- The index of the scenario of the specification: `foo` with only its ARM URL. -/
def armOnlyIndex : Packages :=
  ⟨"packages", [⟨"foo", ⟨⟨""⟩⟩, ⟨⟨"http://example.org/foo-arm.tar.gz"⟩⟩⟩]⟩

/-- An example environment: an amd64 host with home `/h`, a network that serves the index
document and the archive `u`, and no failing call. -/
def demoEnv : Env where
  goarch := "amd64"
  home := .ok "/h"
  net := fun url =>
    if url = base_url ++ "index.xml" then .ok ⟨"<packages/>", none⟩
    else if url = "u" then .ok ⟨"tgz", none⟩
    else .error "connection refused"
  readDir := fun _ => .ok [⟨"a", true⟩, ⟨"index.xml", false⟩, ⟨"b", true⟩]
  decodeXML := fun doc => if doc = "<packages/>" then .ok demoIndex else .error "EOF"
  untar := fun bytes =>
    if bytes = "tgz" then .ok ⟨demoEntries, none⟩ else .error "gzip: invalid header"
  fault := fun _ _ => none
  readFault := fun _ _ => none
  torn := fun _ => none
  served := fun _ => 0

/-- The state of a machine on which nothing was installed and nothing has run yet. -/
def freshState : State := ⟨fun _ => none, [], []⟩

/-- A state in which the store exists and holds nothing. -/
def emptyStore : State :=
  ⟨fun p =>
    if p = "/h" ∨ p = "/h/.local" ∨ p = "/h/.local/reposx" then some (.dir 0o755)
    else none, [], []⟩

/-- A state in which the store holds a cached index with the given bytes. -/
def cachedState (doc : String) : State :=
  ⟨fun p =>
    if p = "/h" ∨ p = "/h/.local" ∨ p = "/h/.local/reposx" then some (.dir 0o755)
    else if p = "/h/.local/reposx/index.xml" then some (.file doc 0o644)
    else none, [], []⟩

/-- The example archive, opened. -/
def demoArchive : Reader := ⟨"/h/.local/reposx/foo.tar.gz", .ok "tgz"⟩

/-- The example environment with a file system that refuses `chmod`. -/
def noChmodEnv : Env :=
  { demoEnv with
    fault := fun _ c =>
      match c with
      | .chmod _ _ => some "operation not permitted"
      | _ => none }

/-- The example environment with a file system that refuses `remove`. -/
def noRemoveEnv : Env :=
  { demoEnv with
    fault := fun _ c =>
      match c with
      | .remove _ => some "operation not permitted"
      | _ => none }

/-- The example environment with files that exist but cannot be opened. -/
def noOpenEnv : Env :=
  { demoEnv with
    readFault := fun _ r =>
      match r with
      | .open _ => some "permission denied"
      | _ => none }

/-- The example environment serving the archive without directory entries. -/
def nestedEnv : Env :=
  { demoEnv with
    untar := fun bytes =>
      if bytes = "tgz" then .ok ⟨nestedEntries, none⟩ else .error "gzip: invalid header" }

/-- The example environment serving an archive whose one entry is written over the
archive itself, on a machine where reading an open file that was truncated fails. -/
def selfEnv : Env :=
  { demoEnv with
    untar := fun bytes =>
      if bytes = "tgz" then .ok ⟨[⟨⟨"../foo.tar.gz", TypeReg⟩, "x", none⟩], none⟩
      else .error "gzip: invalid header"
    torn := fun _ => some "unexpected EOF" }

/-- The example environment serving an archive whose second entry is cut short. -/
def cutEnv : Env :=
  { demoEnv with
    untar := fun bytes =>
      if bytes = "tgz" then
        .ok ⟨[⟨⟨"bin", TypeDir⟩, "", none⟩, ⟨⟨"bin/tool", TypeReg⟩, "#", some "unexpected EOF"⟩],
          none⟩
      else .error "gzip: invalid header" }

/-- The example environment with a store root that cannot be searched: its files can be
neither stat'ed nor opened nor created. -/
def lockedEnv : Env :=
  { demoEnv with
    readFault := fun _ _ => some "permission denied"
    fault := fun _ c =>
      match c with
      | .create _ => some "permission denied"
      | _ => none }

/-- A state in which the archive of `foo` is downloaded and its package directory
exists. -/
def unpackState : State :=
  ⟨fun p =>
    if p = "/h" ∨ p = "/h/.local" ∨ p = "/h/.local/reposx" ∨ p = "/h/.local/reposx/foo"
    then some (.dir 0o755)
    else if p = "/h/.local/reposx/foo.tar.gz" then some (.file "tgz" 0o666)
    else none, [], []⟩

/-! ## Lemmas: the primitives -/

@[simp] theorem State.log_fs (s : State) (c : Call) : (s.log c).fs = s.fs := rfl
@[simp] theorem State.log_trace (s : State) (c : Call) : (s.log c).trace = s.trace ++ [c] := rfl
@[simp] theorem State.log_stdout (s : State) (c : Call) : (s.log c).stdout = s.stdout := rfl
@[simp] theorem State.print_fs (s : State) (t : String) : (s.print t).fs = s.fs := rfl
@[simp] theorem State.print_trace (s : State) (t : String) : (s.print t).trace = s.trace := rfl
@[simp] theorem State.print_stdout (s : State) (t : String) :
    (s.print t).stdout = s.stdout ++ [t] := rfl
@[simp] theorem State.setNode_trace (s : State) (p : String) (n : Option Node) :
    (s.setNode p n).trace = s.trace := rfl
@[simp] theorem State.setNode_stdout (s : State) (p : String) (n : Option Node) :
    (s.setNode p n).stdout = s.stdout := rfl
@[simp] theorem State.setNode_fs_self (s : State) (p : String) (n : Option Node) :
    (s.setNode p n).fs p = n := by simp [State.setNode]
theorem State.setNode_fs (s : State) (p q : String) (n : Option Node) :
    (s.setNode p n).fs q = if q = p then n else s.fs q := rfl
theorem State.setNode_fs_ne (s : State) {p q : String} (n : Option Node) (h : q ≠ p) :
    (s.setNode p n).fs q = s.fs q := by simp [State.setNode, h]

theorem Keeps.same (s : State) : Keeps s s :=
  ⟨fun _ h => h, fun _ h => h, fun _ h => h⟩

theorem Keeps.andThen {s t u : State} (h1 : Keeps s t) (h2 : Keeps t u) : Keeps s u :=
  ⟨fun p h => h2.keeps p (h1.keeps p h), fun p h => h2.dirs p (h1.dirs p h),
    fun p h => h2.files p (h1.files p h)⟩

theorem Keeps.of_fs {s t : State} (h : t.fs = s.fs) : Keeps s t :=
  ⟨fun p hp => by rw [h]; exact hp, fun p hp => by rw [h]; exact hp,
    fun p hp => by rw [h]; exact hp⟩

theorem Grows.still (s : State) : Grows s s :=
  ⟨Keeps.same s, ⟨[], by simp⟩⟩

theorem Grows.followedBy {s t u : State} (h1 : Grows s t) (h2 : Grows t u) : Grows s u := by
  obtain ⟨cs, hcs, hP⟩ := h1.trace
  obtain ⟨ds, hds, hQ⟩ := h2.trace
  refine ⟨h1.toKeeps.andThen h2.toKeeps, ⟨cs ++ ds, by simp [hds, hcs], ?_⟩⟩
  intro c hc
  rcases List.mem_append.1 hc with h | h
  · exact hP c h
  · exact hQ c h

theorem Grows.print (s : State) (t : String) : Grows s (s.print t) :=
  ⟨Keeps.of_fs rfl, ⟨[], by simp⟩⟩

theorem Grows.log (s : State) (c : Call) (hc : c.isLocal = true) : Grows s (s.log c) :=
  ⟨Keeps.of_fs rfl, ⟨[c], by simp, by simpa using hc⟩⟩

theorem Grows.setNode (s : State) (p : String) (n : Node)
    (hd : isDirNode (s.fs p) = true → isDirNode (some n) = true)
    (hf : isFileNode (s.fs p) = true → isFileNode (some n) = true) :
    Grows s (s.setNode p (some n)) := by
  refine ⟨⟨?_, ?_, ?_⟩, ⟨[], by simp⟩⟩
  · intro q hq
    rw [State.setNode_fs]
    split <;> simp_all
  · intro q hq
    rw [State.setNode_fs]
    split
    · next h => subst h; exact hd hq
    · exact hq
  · intro q hq
    rw [State.setNode_fs]
    split
    · next h => subst h; exact hf hq
    · exact hq

theorem isDirNode_isFileNode {n : Option Node} (h : isDirNode n = true) :
    isFileNode n = false := by
  cases n with
  | none => rfl
  | some m => cases m <;> simp_all [isDirNode, isFileNode]

theorem isFileNode_isDirNode {n : Option Node} (h : isFileNode n = true) :
    isDirNode n = false := by
  cases n with
  | none => rfl
  | some m => cases m <;> simp_all [isDirNode, isFileNode]

theorem httpGet_state (env : Env) (url : String) (s : State) :
    (httpGet env url s).2 = s.log (.httpGet url) := by
  unfold httpGet
  split <;> rfl

/-! ### `os.MkdirAll` -/

theorem mkdirChain_trace (perm : Nat) (qs : List String) (s : State) :
    (mkdirChain perm qs s).2.trace = s.trace ∧ (mkdirChain perm qs s).2.stdout = s.stdout := by
  induction qs generalizing s with
  | nil => simp [mkdirChain]
  | cons q qs ih =>
    unfold mkdirChain
    split
    · exact ih s
    · simp
    · simpa using ih (s.setNode q (some (.dir perm)))

theorem mkdirChain_grows (perm : Nat) (qs : List String) (s : State) :
    Grows s (mkdirChain perm qs s).2 := by
  induction qs generalizing s with
  | nil => exact Grows.still s
  | cons q qs ih =>
    unfold mkdirChain
    split
    · exact ih s
    · exact Grows.still s
    · next h =>
      exact (Grows.setNode s q (.dir perm) (by simp [h, isDirNode]) (by simp [h, isFileNode])).followedBy (ih _)

/-- The chain changes a path only by creating a directory where nothing was. -/
theorem mkdirChain_fs (perm : Nat) (qs : List String) (s : State) (p : String) :
    (mkdirChain perm qs s).2.fs p = s.fs p ∨
      (s.fs p = none ∧ p ∈ qs ∧ (mkdirChain perm qs s).2.fs p = some (.dir perm)) := by
  induction qs generalizing s with
  | nil => exact Or.inl rfl
  | cons q qs ih =>
    unfold mkdirChain
    split
    · rcases ih s with h | ⟨h1, h2, h3⟩
      · exact Or.inl h
      · exact Or.inr ⟨h1, List.mem_cons_of_mem _ h2, h3⟩
    · exact Or.inl rfl
    · next hq =>
      by_cases hp : p = q
      · subst hp
        refine Or.inr ⟨hq, List.mem_cons_self _ _, ?_⟩
        rcases ih (s.setNode p (some (.dir perm))) with h | ⟨h1, _, _⟩
        · rw [h]; simp
        · simp at h1
      · rcases ih (s.setNode q (some (.dir perm))) with h | ⟨h1, h2, h3⟩
        · left; rw [h, State.setNode_fs_ne _ _ hp]
        · right
          rw [State.setNode_fs_ne _ _ hp] at h1
          exact ⟨h1, List.mem_cons_of_mem _ h2, h3⟩

theorem mkdirChain_dirs (perm : Nat) (qs : List String) (s : State)
    (hok : (mkdirChain perm qs s).1 = .ok ()) :
    ∀ q ∈ qs, isDirNode ((mkdirChain perm qs s).2.fs q) = true := by
  induction qs generalizing s with
  | nil => simp
  | cons q qs ih =>
    unfold mkdirChain at hok ⊢
    split at hok
    · next m h =>
      intro r hr
      rcases List.mem_cons.1 hr with rfl | hr
      · exact (mkdirChain_grows perm qs s).dirs _ (by simp [h, isDirNode])
      · exact ih s hok r hr
    · simp at hok
    · next h =>
      intro r hr
      rcases List.mem_cons.1 hr with rfl | hr
      · exact (mkdirChain_grows perm qs _).dirs _ (by simp [isDirNode])
      · exact ih _ hok r hr

/-- The chain succeeds exactly when none of the paths is a file. -/
theorem mkdirChain_ok_iff (perm : Nat) (qs : List String) (s : State) :
    (mkdirChain perm qs s).1 = .ok () ↔ ∀ q ∈ qs, isFileNode (s.fs q) = false := by
  induction qs generalizing s with
  | nil => simp [mkdirChain]
  | cons q qs ih =>
    unfold mkdirChain
    split
    · next m h =>
      rw [ih s]
      simp [h, isFileNode]
    · next c m h =>
      simp [h, isFileNode]
    · next h =>
      rw [ih]
      have key : ∀ r, isFileNode ((s.setNode q (some (.dir perm))).fs r) = isFileNode (s.fs r) := by
        intro r
        rw [State.setNode_fs]
        split
        · next hr => subst hr; simp [h, isFileNode]
        · rfl
      constructor
      · intro hall r hr
        rcases List.mem_cons.1 hr with rfl | hr
        · rw [h]; rfl
        · rw [← key]; exact hall r hr
      · intro hall r hr
        rw [key]
        exact hall r (List.mem_cons_of_mem _ hr)

/-- A failing chain stops at a file. -/
theorem mkdirChain_error (perm : Nat) (qs : List String) (s : State) (err : String)
    (h : (mkdirChain perm qs s).1 = .error err) :
    ∃ q ∈ qs, isFileNode (s.fs q) = true := by
  by_contra hno
  have : (mkdirChain perm qs s).1 = .ok () := by
    rw [mkdirChain_ok_iff]
    intro q hq
    by_contra hf
    exact hno ⟨q, hq, by simpa using hf⟩
  rw [this] at h
  simp at h

theorem ancestors_mem (acc cs : List Char) : (⟨acc ++ cs⟩ : String) ∈ ancestors acc cs := by
  induction cs generalizing acc with
  | nil => simp [ancestors]
  | cons c cs ih =>
    have h := ih (acc ++ [c])
    simp only [List.append_assoc, List.singleton_append] at h
    unfold ancestors
    split
    · exact List.mem_cons_of_mem _ h
    · exact h

theorem MkdirAll_trace (env : Env) (path : String) (perm : Nat) (s : State) :
    (MkdirAll env path perm s).2.trace = s.trace ++ [.mkdirAll path perm] ∧
    (MkdirAll env path perm s).2.stdout = s.stdout := by
  unfold MkdirAll
  split
  · simp
  · split
    · simp
    · simp
    · simpa using mkdirChain_trace perm (ancestors [] path.data) (s.log (.mkdirAll path perm))

theorem MkdirAll_grows (env : Env) (path : String) (perm : Nat) (s : State) :
    Grows s (MkdirAll env path perm s).2 := by
  have hl : Grows s (s.log (.mkdirAll path perm)) := Grows.log s _ rfl
  unfold MkdirAll
  split
  · exact hl
  · split
    · exact hl
    · exact hl
    · exact hl.followedBy (mkdirChain_grows _ _ _)

theorem MkdirAll_dir (env : Env) (path : String) (perm : Nat) (s : State)
    (hok : (MkdirAll env path perm s).1 = .ok ()) :
    isDirNode ((MkdirAll env path perm s).2.fs path) = true := by
  unfold MkdirAll at hok ⊢
  split at hok
  · simp at hok
  · split at hok
    · next m h => simp [h, isDirNode]
    · simp at hok
    · exact mkdirChain_dirs perm _ _ hok path (by simpa using ancestors_mem [] path.data)

/-- A directory that exists is left as it is by `os.MkdirAll`. -/
theorem MkdirAll_of_dir (env : Env) (path : String) (perm m : Nat) (s : State)
    (hf : env.fault s.trace (.mkdirAll path perm) = none)
    (h : s.fs path = some (.dir m)) :
    MkdirAll env path perm s = (.ok (), s.log (.mkdirAll path perm)) := by
  simp [MkdirAll, h, hf]

/-- An `os.MkdirAll` the environment refuses changes nothing. -/
theorem MkdirAll_of_fault (env : Env) (path : String) (perm : Nat) (s : State) (err : String)
    (hf : env.fault s.trace (.mkdirAll path perm) = some err) :
    MkdirAll env path perm s = (.error err, s.log (.mkdirAll path perm)) := by
  simp [MkdirAll, hf]

/-- What `os.MkdirAll` does to a path: nothing, or it creates a directory where nothing
was, on the way to `path`. -/
theorem MkdirAll_fs (env : Env) (path : String) (perm : Nat) (s : State) (p : String) :
    (MkdirAll env path perm s).2.fs p = s.fs p ∨
      (s.fs p = none ∧ p ∈ ancestors [] path.data ∧
        (MkdirAll env path perm s).2.fs p = some (.dir perm)) := by
  unfold MkdirAll
  split
  · exact Or.inl rfl
  · split
    · exact Or.inl rfl
    · exact Or.inl rfl
    · exact mkdirChain_fs perm _ (s.log (.mkdirAll path perm)) p

/-- A path that exists is left as it is by `os.MkdirAll`. -/
theorem MkdirAll_frame (env : Env) (path : String) (perm : Nat) (s : State) (p : String)
    (h : s.fs p ≠ none) : (MkdirAll env path perm s).2.fs p = s.fs p := by
  rcases MkdirAll_fs env path perm s p with h1 | ⟨h1, _, _⟩
  · exact h1
  · exact absurd h1 h

/-- When `os.MkdirAll` succeeds. -/
theorem MkdirAll_ok_iff (env : Env) (path : String) (perm : Nat) (s : State) :
    (MkdirAll env path perm s).1 = .ok () ↔ canMkdirAll env path perm s = true := by
  unfold MkdirAll canMkdirAll
  split
  · next err hf => simp [hf]
  · next hf =>
    split
    · next m h => simp [h, hf, isDirNode]
    · next c m h => simp [h, hf, isDirNode]
    · next h =>
      rw [mkdirChain_ok_iff]
      simp [h, hf, isDirNode]

/-! ### `os.Create`, `io.Copy`, `os.Chmod`, `os.Remove` -/

theorem Create_trace (env : Env) (path : String) (s : State) :
    (Create env path s).2.trace = s.trace ++ [.create path] ∧
    (Create env path s).2.stdout = s.stdout := by
  unfold Create
  repeat' split
  all_goals simp

theorem Create_grows (env : Env) (path : String) (s : State) :
    Grows s (Create env path s).2 := by
  have hl : Grows s (s.log (.create path)) := Grows.log s _ rfl
  unfold Create
  split
  · exact hl
  · split
    · exact hl
    · split
      · exact hl
      · next h => exact hl.followedBy (Grows.setNode _ _ _ (by simp [h, isDirNode]) (by simp [h, isFileNode]))
      · next h => exact hl.followedBy (Grows.setNode _ _ _ (by simp [h, isDirNode]) (by simp [h, isFileNode]))

/-- When `os.Create` succeeds, and what it leaves. -/
theorem Create_of_can {env : Env} {path : String} {s : State}
    (h : canCreate env path s = true) : Create env path s = (.ok (), created path s) := by
  simp only [canCreate, Bool.and_eq_true, decide_eq_true_eq, Bool.not_eq_true'] at h
  obtain ⟨⟨hf, hp⟩, hd⟩ := h
  unfold Create created createMode
  simp only [hf, hp]
  cases hn : s.fs path with
  | none => simp
  | some n =>
    cases n with
    | file c m => simp
    | dir m => simp [hn, isDirNode] at hd

/-- When `os.Create` fails, it changes nothing. -/
theorem Create_of_cannot {env : Env} {path : String} {s : State}
    (h : canCreate env path s = false) :
    ∃ err, Create env path s = (.error err, s.log (.create path)) := by
  unfold Create
  dsimp only
  split
  · exact ⟨_, rfl⟩
  · next hf =>
    split
    · exact ⟨_, rfl⟩
    · next hp =>
      split
      · exact ⟨_, rfl⟩
      · next c m hn => simp [canCreate, hf, hp, hn, isDirNode] at h
      · next hn => simp [canCreate, hf, hp, hn, isDirNode] at h

theorem Create_ok_iff (env : Env) (path : String) (s : State) :
    (Create env path s).1 = .ok () ↔ canCreate env path s = true := by
  constructor
  · intro h
    by_contra hc
    obtain ⟨err, he⟩ := Create_of_cannot (Bool.eq_false_iff.2 hc)
    rw [he] at h
    simp at h
  · intro h
    rw [Create_of_can h]

theorem Create_ok {env : Env} {path : String} {s t : State}
    (h : Create env path s = (.ok (), t)) : canCreate env path s = true ∧ t = created path s := by
  have hc : canCreate env path s = true := (Create_ok_iff env path s).1 (by rw [h])
  rw [Create_of_can hc] at h
  simp only [Prod.mk.injEq, true_and] at h
  exact ⟨hc, h.symm⟩

theorem Copy_trace (env : Env) (path data : String) (readErr : Option String) (s : State) :
    (Copy env path data readErr s).2.trace = s.trace ++ [.copy path data] ∧
    (Copy env path data readErr s).2.stdout = s.stdout := by
  unfold Copy
  repeat' split
  all_goals simp

theorem Copy_grows (env : Env) (path data : String) (readErr : Option String) (s : State) :
    Grows s (Copy env path data readErr s).2 := by
  have hl : Grows s (s.log (.copy path data)) := Grows.log s _ rfl
  unfold Copy
  split
  · exact hl
  · split
    · next h =>
      split
      · exact hl.followedBy (Grows.setNode _ _ _ (by simp [h, isDirNode]) (by simp [h, isFileNode]))
      · exact hl.followedBy (Grows.setNode _ _ _ (by simp [h, isDirNode]) (by simp [h, isFileNode]))
    · exact hl

/-- A copy into a file that exists, with nothing in its way, writes the bytes. -/
theorem Copy_of_file {env : Env} {path data : String} {s : State} (content : String)
    (mode : Nat) (hfs : s.fs path = some (.file content mode))
    (hf : env.fault s.trace (.copy path data) = none) :
    Copy env path data none s
      = (.ok (), (s.log (.copy path data)).setNode path (some (.file data mode))) := by
  simp [Copy, hf, hfs]

theorem Copy_ok {env : Env} {path data : String} {readErr : Option String} {s t : State}
    (h : Copy env path data readErr s = (.ok (), t)) :
    readErr = none ∧ env.fault s.trace (.copy path data) = none ∧
      ∃ content mode, s.fs path = some (.file content mode) ∧
        t = (s.log (.copy path data)).setNode path (some (.file data mode)) := by
  unfold Copy at h
  dsimp only at h
  split at h
  · simp at h
  · next hf =>
    split at h
    · next c m hn =>
      split at h
      · simp at h
      · exact ⟨rfl, hf, c, m, hn, by simpa using h.symm⟩
    · simp at h

/-- A copy changes no path but its own. -/
theorem Copy_frame (env : Env) (path data : String) (readErr : Option String) (s : State)
    {p : String} (hp : p ≠ path) : (Copy env path data readErr s).2.fs p = s.fs p := by
  unfold Copy
  repeat' split
  all_goals simp [State.setNode_fs, hp]

theorem Chmod_trace (env : Env) (path : String) (mode : Nat) (s : State) :
    (Chmod env path mode s).2.trace = s.trace ++ [.chmod path mode] ∧
    (Chmod env path mode s).2.stdout = s.stdout := by
  unfold Chmod
  repeat' split
  all_goals simp

theorem Chmod_grows (env : Env) (path : String) (mode : Nat) (s : State) :
    Grows s (Chmod env path mode s).2 := by
  have hl : Grows s (s.log (.chmod path mode)) := Grows.log s _ rfl
  unfold Chmod
  split
  · exact hl
  · split
    · next h => exact hl.followedBy (Grows.setNode _ _ _ (by simp [h, isDirNode]) (by simp [h, isFileNode]))
    · next h => exact hl.followedBy (Grows.setNode _ _ _ (by simp [isDirNode]) (by simp [h, isFileNode]))
    · exact hl

/-- A `chmod` changes no path but its own. -/
theorem Chmod_frame (env : Env) (path : String) (mode : Nat) (s : State)
    {p : String} (hp : p ≠ path) : (Chmod env path mode s).2.fs p = s.fs p := by
  unfold Chmod
  repeat' split
  all_goals simp [State.setNode_fs, hp]

/-- A `chmod` of a file, with nothing in its way, sets the mode. -/
theorem Chmod_of_file {env : Env} {path : String} {mode : Nat} {s : State} (content : String)
    (m : Nat) (hfs : s.fs path = some (.file content m))
    (hf : env.fault s.trace (.chmod path mode) = none) :
    Chmod env path mode s
      = (.ok (), (s.log (.chmod path mode)).setNode path (some (.file content mode))) := by
  simp [Chmod, hf, hfs]

/-- A `chmod` the environment refuses changes nothing. -/
theorem Chmod_of_fault {env : Env} {path : String} {mode : Nat} {s : State} {err : String}
    (hf : env.fault s.trace (.chmod path mode) = some err) :
    Chmod env path mode s = (.error err, s.log (.chmod path mode)) := by
  simp [Chmod, hf]

theorem Chmod_ok_file {env : Env} {path : String} {mode : Nat} {s t : State}
    (content : String) (m : Nat) (hfs : s.fs path = some (.file content m))
    (h : Chmod env path mode s = (.ok (), t)) :
    env.fault s.trace (.chmod path mode) = none ∧
      t = (s.log (.chmod path mode)).setNode path (some (.file content mode)) := by
  unfold Chmod at h
  dsimp only at h
  split at h
  · simp at h
  · next hf =>
    simp only [hfs] at h
    exact ⟨hf, by simpa using h.symm⟩

theorem Remove_trace (env : Env) (path : String) (s : State) :
    (Remove env path s).2.trace = s.trace ++ [.remove path] ∧
    (Remove env path s).2.stdout = s.stdout := by
  unfold Remove
  repeat' split
  all_goals simp

/-- A removal changes no path but its own. -/
theorem Remove_frame (env : Env) (path : String) (s : State)
    {p : String} (hp : p ≠ path) : (Remove env path s).2.fs p = s.fs p := by
  unfold Remove
  repeat' split
  all_goals simp [State.setNode_fs, hp]

/-- A removal that succeeds was let through, and the path is gone. -/
theorem Remove_ok {env : Env} {path : String} {s t : State}
    (h : Remove env path s = (.ok (), t)) :
    env.fault s.trace (.remove path) = none ∧ s.fs path ≠ none ∧
      t = (s.log (.remove path)).setNode path none := by
  unfold Remove at h
  dsimp only at h
  split at h
  · simp at h
  · next hf =>
    split at h
    · next n hn =>
      simp only [Prod.mk.injEq, true_and] at h
      exact ⟨hf, by simp [hn], h.symm⟩
    · simp at h

/-- A removal that fails changes nothing. -/
theorem Remove_error {env : Env} {path : String} {s t : State} {err : String}
    (h : Remove env path s = (.error err, t)) : t = s.log (.remove path) := by
  unfold Remove at h
  dsimp only at h
  split at h
  · simp only [Prod.mk.injEq] at h
    exact h.2.symm
  · split at h
    · simp at h
    · simp only [Prod.mk.injEq] at h
      exact h.2.symm

/-- The removal of a path that exists succeeds exactly when the environment lets it
through. -/
theorem Remove_of_exists {env : Env} {path : String} {s : State} (hfs : s.fs path ≠ none)
    (hf : env.fault s.trace (.remove path) = none) :
    Remove env path s = (.ok (), (s.log (.remove path)).setNode path none) := by
  unfold Remove
  dsimp only
  rw [hf]
  cases hn : s.fs path with
  | none => exact absurd hn hfs
  | some n => rfl

/-! ## Lemmas: paths -/

/-- What one step of `Clean` does to the stack. -/
theorem cleanStep_cases (rooted : Bool) (K : List (List Char)) (c : List Char) :
    cleanStep rooted K c = K ∨ (cleanStep rooted K c = K ++ [c] ∧ c ≠ []) ∨
      cleanStep rooted K c = K.dropLast := by
  unfold cleanStep
  split
  · exact Or.inl rfl
  · next h1 =>
    have hc : c ≠ [] := fun h => h1 (Or.inl h)
    split
    · split
      · split
        · exact Or.inr (Or.inl ⟨rfl, hc⟩)
        · exact Or.inr (Or.inr rfl)
      · split
        · exact Or.inl rfl
        · exact Or.inr (Or.inl ⟨rfl, hc⟩)
    · exact Or.inr (Or.inl ⟨rfl, hc⟩)

theorem Stable.nil (rooted : Bool) : Stable rooted [] :=
  ⟨fun n => by simp, by simp⟩

theorem Stable.self {rooted : Bool} {K : List (List Char)} (h : Stable rooted K) :
    K.foldl (cleanStep rooted) [] = K := by
  have := h.1 K.length
  simpa using this

theorem Stable.step {rooted : Bool} {K : List (List Char)} (h : Stable rooted K)
    (c : List Char) (hc : '/' ∉ c) : Stable rooted (cleanStep rooted K c) := by
  rcases cleanStep_cases rooted K c with h1 | ⟨h1, hne⟩ | h1
  · rw [h1]; exact h
  · refine ⟨?_, ?_⟩
    · intro n
      by_cases hn : n ≤ K.length
      · rw [h1, List.take_append_of_le_length hn]
        exact h.1 n
      · have ht : (cleanStep rooted K c).take n = cleanStep rooted K c := by
          apply List.take_of_length_le
          rw [h1]
          simp
          omega
        rw [ht]
        conv_lhs => rw [h1]
        rw [List.foldl_append, h.self]
        rfl
    · rw [h1]
      intro d hd
      rcases List.mem_append.1 hd with hd | hd
      · exact h.2 d hd
      · simp only [List.mem_singleton] at hd
        subst hd
        exact ⟨hne, hc⟩
  · rw [h1]
    refine ⟨?_, fun d hd => h.2 d (List.mem_of_mem_dropLast hd)⟩
    intro n
    rw [List.dropLast_eq_take, List.take_take]
    exact h.1 _

theorem Stable.foldl {rooted : Bool} (xs : List (List Char)) (hxs : ∀ c ∈ xs, '/' ∉ c)
    {K : List (List Char)} (h : Stable rooted K) :
    Stable rooted (xs.foldl (cleanStep rooted) K) := by
  induction xs generalizing K with
  | nil => exact h
  | cons x xs ih =>
    exact ih (fun c hc => hxs c (List.mem_cons_of_mem _ hc))
      (h.step x (hxs x (List.mem_cons_self _ _)))

theorem State.eq_of {s t : State} (h1 : ∀ q, s.fs q = t.fs q) (h2 : s.trace = t.trace)
    (h3 : s.stdout = t.stdout) : s = t := by
  cases s
  cases t
  simp only [State.mk.injEq]
  exact ⟨funext h1, h2, h3⟩

theorem findPackage_eq_none {name : String} {l : List Package}
    (h : ∀ p ∈ l, p.Name ≠ name) : findPackage name l = none := by
  induction l with
  | nil => rfl
  | cons p l ih =>
    have hp : p.Name ≠ name := h p (List.mem_cons_self _ _)
    simp only [findPackage, hp, if_false]
    exact ih (fun q hq => h q (List.mem_cons_of_mem _ hq))

theorem findPackage_first {name : String} {front back : List Package} {pkg : Package}
    (hfront : ∀ p ∈ front, p.Name ≠ name) (hpkg : pkg.Name = name) :
    findPackage name (front ++ pkg :: back) = some pkg := by
  induction front with
  | nil => simp [findPackage, hpkg]
  | cons p l ih =>
    have hp : p.Name ≠ name := hfront p (List.mem_cons_self _ _)
    simp only [List.cons_append, findPackage, hp, if_false]
    exact ih (fun q hq => hfront q (List.mem_cons_of_mem _ hq))

theorem findPackage_some {name : String} {l : List Package} {pkg : Package}
    (h : findPackage name l = some pkg) :
    ∃ front back, l = front ++ pkg :: back ∧ (∀ p ∈ front, p.Name ≠ name) ∧ pkg.Name = name := by
  induction l with
  | nil => simp [findPackage] at h
  | cons p l ih =>
    unfold findPackage at h
    split at h
    · next hp =>
      simp only [Option.some.injEq] at h
      subst h
      exact ⟨[], l, rfl, by simp, hp⟩
    · next hp =>
      obtain ⟨front, back, rfl, hf, hn⟩ := ih h
      refine ⟨p :: front, back, rfl, ?_, hn⟩
      intro q hq
      rcases List.mem_cons.1 hq with rfl | hq
      · exact hp
      · exact hf q hq

/-! ### `downloadFile` -/

theorem downloadFile_keeps (env : Env) (url path : String) (s : State) :
    Keeps s (downloadFile env url path s).2 := by
  have h0 : Keeps s ((s.print ("[...] downloading " ++ url ++ "\n")).log (.httpGet url)) :=
    Keeps.of_fs rfl
  unfold downloadFile
  dsimp only
  have hs := httpGet_state env url (s.print ("[...] downloading " ++ url ++ "\n"))
  rcases hg : httpGet env url (s.print ("[...] downloading " ++ url ++ "\n")) with ⟨r, s1⟩
  rw [hg] at hs
  simp only at hs
  subst hs
  cases r with
  | error e => exact h0
  | ok body =>
    dsimp only
    have hc := Create_grows env path
      ((s.print ("[...] downloading " ++ url ++ "\n")).log (.httpGet url))
    rcases hcr : Create env path
      ((s.print ("[...] downloading " ++ url ++ "\n")).log (.httpGet url)) with ⟨r2, s2⟩
    rw [hcr] at hc
    cases r2 with
    | error e => exact h0.andThen hc.toKeeps
    | ok u =>
      exact (h0.andThen hc.toKeeps).andThen (Copy_grows env path body.data body.err s2).toKeeps

/-- The calls `downloadFile` makes: the request comes first and is the only one. -/
theorem downloadFile_calls (env : Env) (url path : String) (s : State) :
    ∃ rest, (downloadFile env url path s).2.trace = s.trace ++ Call.httpGet url :: rest ∧
      ∀ c ∈ rest, c.isLocal = true := by
  unfold downloadFile
  dsimp only
  have hs := httpGet_state env url (s.print ("[...] downloading " ++ url ++ "\n"))
  rcases hg : httpGet env url (s.print ("[...] downloading " ++ url ++ "\n")) with ⟨r, s1⟩
  rw [hg] at hs
  simp only at hs
  subst hs
  cases r with
  | error e => exact ⟨[], by simp⟩
  | ok body =>
    dsimp only
    have hc := Create_trace env path
      ((s.print ("[...] downloading " ++ url ++ "\n")).log (.httpGet url))
    rcases hcr : Create env path
      ((s.print ("[...] downloading " ++ url ++ "\n")).log (.httpGet url)) with ⟨r2, s2⟩
    rw [hcr] at hc
    simp only [State.log_trace, State.print_trace] at hc
    cases r2 with
    | error e => exact ⟨[.create path], by simp [hc.1], by simp [Call.isLocal]⟩
    | ok u =>
      refine ⟨[.create path, .copy path body.data], ?_, by simp [Call.isLocal]⟩
      have := (Copy_trace env path body.data body.err s2).1
      simp [this, hc.1]

/-- A download changes no path but its own. -/
theorem downloadFile_frame (env : Env) (url path : String) (s : State) {p : String}
    (hp : p ≠ path) : (downloadFile env url path s).2.fs p = s.fs p := by
  unfold downloadFile
  dsimp only
  have hs := httpGet_state env url (s.print ("[...] downloading " ++ url ++ "\n"))
  rcases hg : httpGet env url (s.print ("[...] downloading " ++ url ++ "\n")) with ⟨r, s1⟩
  rw [hg] at hs
  simp only at hs
  subst hs
  cases r with
  | error e => rfl
  | ok body =>
    dsimp only
    by_cases hc : canCreate env path
        ((s.print ("[...] downloading " ++ url ++ "\n")).log (.httpGet url)) = true
    · rw [Create_of_can hc]
      dsimp only
      rw [Copy_frame _ _ _ _ _ hp]
      simp [created, State.setNode_fs, hp]
    · obtain ⟨err, he⟩ := Create_of_cannot (Bool.eq_false_iff.2 hc)
      rw [he]
      rfl

/-- A download with nothing in its way: the network answers with a complete body, the
file can be created and written. -/
theorem downloadFile_of_can {env : Env} {url path body : String} {s : State}
    (hurl : url ≠ "") (hnet : env.net url = .ok ⟨body, none⟩)
    (hcreate : canCreate env path (s.log (.httpGet url)) = true)
    (hcopy : env.fault (s.trace ++ [.httpGet url, .create path]) (.copy path body) = none) :
    downloadFile env url path s = (.ok (), downloaded url path body s) := by
  have hcreate2 : canCreate env path
      ((s.print ("[...] downloading " ++ url ++ "\n")).log (.httpGet url)) = true := hcreate
  unfold downloadFile
  simp only [httpGet, hurl, if_false, hnet, Create_of_can hcreate2]
  rw [Copy_of_file "" (createMode path s) (by simp [created, createMode])
    (by simpa [created] using hcopy)]
  congr 1
  apply State.eq_of
  · intro q
    simp [downloaded, created, State.setNode_fs, createMode]
    split <;> rfl
  · simp [downloaded, created]
  · simp [downloaded, created]

/-- A download that succeeds: the network answered with a complete body, the file could be
created and written, and the body is now the contents of the file at `path`; nothing else
in the file system changed. -/
theorem downloadFile_ok {env : Env} {url path : String} {s t : State}
    (h : downloadFile env url path s = (.ok (), t)) :
    ∃ body, url ≠ "" ∧ env.net url = .ok ⟨body, none⟩ ∧
      canCreate env path (s.log (.httpGet url)) = true ∧
      env.fault (s.trace ++ [.httpGet url, .create path]) (.copy path body) = none ∧
      t = downloaded url path body s := by
  have h0 := h
  unfold downloadFile at h
  dsimp only at h
  rcases hg : httpGet env url (s.print ("[...] downloading " ++ url ++ "\n")) with ⟨r, s1⟩
  rw [hg] at h
  cases r with
  | error e => simp at h
  | ok resp =>
    dsimp only at h
    unfold httpGet at hg
    dsimp only at hg
    split at hg
    · simp at hg
    · next hurl =>
      simp only [Prod.mk.injEq] at hg
      obtain ⟨hnet, rfl⟩ := hg
      rcases hcr : Create env path
        ((s.print ("[...] downloading " ++ url ++ "\n")).log (.httpGet url)) with ⟨r2, s2⟩
      rw [hcr] at h
      cases r2 with
      | error e => simp at h
      | ok u =>
        dsimp only at h
        obtain ⟨hcan, rfl⟩ := Create_ok hcr
        obtain ⟨herr, hfault, _, _, _, _⟩ := Copy_ok h
        have hcan2 : canCreate env path (s.log (.httpGet url)) = true := hcan
        have hnet2 : env.net url = .ok ⟨resp.data, none⟩ := by
          rw [hnet, ← herr]
        have hcopy : env.fault (s.trace ++ [.httpGet url, .create path])
            (.copy path resp.data) = none := by
          simpa [created] using hfault
        refine ⟨resp.data, hurl, hnet2, hcan2, hcopy, ?_⟩
        rw [downloadFile_of_can hurl hnet2 hcan2 hcopy] at h0
        simp only [Prod.mk.injEq, true_and] at h0
        exact h0.symm

@[simp] theorem downloaded_fs_self (url path body : String) (s : State) :
    (downloaded url path body s).fs path = some (.file body (createMode path s)) := by
  simp [downloaded]

theorem downloaded_fs_ne (url path body : String) (s : State) {q : String} (h : q ≠ path) :
    (downloaded url path body s).fs q = s.fs q := by
  simp [downloaded, h]

@[simp] theorem downloaded_trace (url path body : String) (s : State) :
    (downloaded url path body s).trace
      = s.trace ++ [.httpGet url, .create path, .copy path body] := rfl

@[simp] theorem downloaded_stdout (url path body : String) (s : State) :
    (downloaded url path body s).stdout
      = s.stdout ++ ["[...] downloading " ++ url ++ "\n"] := rfl

/-! ### `extractTarGz` -/

theorem extractEntry_skip (env : Env) (r : Reader) (destPath : String) (e : TarEntry)
    (s : State) (h : supported e = false) : extractEntry env r destPath e s = (.ok (), s) := by
  simp only [supported, Bool.or_eq_false_iff, decide_eq_false_iff_not] at h
  simp [extractEntry, h.1, h.2]

theorem extractEntry_of_dir (env : Env) (r : Reader) (destPath : String) (e : TarEntry)
    (s : State) (h : e.header.Typeflag = TypeDir) :
    extractEntry env r destPath e s = MkdirAll env (Join [destPath, e.header.Name]) 0o755 s := by
  simp [extractEntry, h]

/-- The extraction of a regular file, step by step. -/
theorem extractEntry_of_reg (env : Env) (r : Reader) (destPath : String) (e : TarEntry)
    (s : State) (h : e.header.Typeflag = TypeReg) :
    extractEntry env r destPath e s
      = match Create env (Join [destPath, e.header.Name]) s with
        | (.error err, s) => (.error err, s)
        | (.ok (), s) =>
          match (match readError env r s with
            | some err =>
              Copy env (Join [destPath, e.header.Name])
                ⟨e.data.data.take (env.served s.trace)⟩ (some err) s
            | none => Copy env (Join [destPath, e.header.Name]) e.data e.dataErr s) with
          | (.error err, s) => (.error err, s)
          | (.ok (), s) => Chmod env (Join [destPath, e.header.Name]) 0o755 s := by
  have hne : TypeReg ≠ TypeDir := by decide
  simp only [extractEntry, h, hne, if_true, if_false]

theorem extractEntry_grows (env : Env) (r : Reader) (destPath : String) (e : TarEntry)
    (s : State) : Grows s (extractEntry env r destPath e s).2 := by
  by_cases hd : e.header.Typeflag = TypeDir
  · rw [extractEntry_of_dir _ _ _ _ _ hd]
    exact MkdirAll_grows _ _ _ _
  · by_cases hr : e.header.Typeflag = TypeReg
    · rw [extractEntry_of_reg _ _ _ _ _ hr]
      have hc := Create_grows env (Join [destPath, e.header.Name]) s
      rcases hcr : Create env (Join [destPath, e.header.Name]) s with ⟨r1, s1⟩
      rw [hcr] at hc
      cases r1 with
      | error err => exact hc
      | ok u =>
        dsimp only
        have hp : ∀ data rerr, Grows s1 (Copy env (Join [destPath, e.header.Name]) data rerr s1).2 :=
          fun data rerr => Copy_grows env _ data rerr s1
        cases readError env r s1 with
        | some err =>
          dsimp only
          have hp1 := hp ⟨e.data.data.take (env.served s1.trace)⟩ (some err)
          rcases hcp : Copy env (Join [destPath, e.header.Name])
            ⟨e.data.data.take (env.served s1.trace)⟩ (some err) s1 with ⟨r2, s2⟩
          rw [hcp] at hp1
          cases r2 with
          | error err => exact hc.followedBy hp1
          | ok u => exact (hc.followedBy hp1).followedBy (Chmod_grows _ _ _ _)
        | none =>
          dsimp only
          have hp1 := hp e.data e.dataErr
          rcases hcp : Copy env (Join [destPath, e.header.Name]) e.data e.dataErr s1
            with ⟨r2, s2⟩
          rw [hcp] at hp1
          cases r2 with
          | error err => exact hc.followedBy hp1
          | ok u => exact (hc.followedBy hp1).followedBy (Chmod_grows _ _ _ _)
    · rw [extractEntry_skip _ _ _ _ _ (by simp [supported, hd, hr])]
      exact Grows.still s

/-- A regular file that can be extracted is extracted: the path holds the bytes of the
entry with mode 0755. -/
theorem extractEntry_of_can {env : Env} {r : Reader} {destPath : String} {e : TarEntry}
    {s : State} (hr : e.header.Typeflag = TypeReg)
    (h : canExtractFile env r (Join [destPath, e.header.Name]) e s = true) :
    extractEntry env r destPath e s
      = (.ok (), extractedFile (Join [destPath, e.header.Name]) e.data s) := by
  simp only [canExtractFile, Bool.and_eq_true, decide_eq_true_eq] at h
  obtain ⟨⟨⟨⟨hc, hread⟩, hdata⟩, hcopy⟩, hchmod⟩ := h
  rw [extractEntry_of_reg _ _ _ _ _ hr, Create_of_can hc]
  simp only [hread, hdata]
  rw [Copy_of_file "" (createMode (Join [destPath, e.header.Name]) s)
    (by simp [created]) (by simpa [created] using hcopy)]
  dsimp only
  rw [Chmod_of_file e.data (createMode (Join [destPath, e.header.Name]) s) (by simp)
    (by simpa [created] using hchmod)]
  congr 1
  apply State.eq_of
  · intro q
    simp only [extractedFile, created, State.setNode_fs, State.log_fs]
    split <;> rfl
  · simp [extractedFile, created]
  · simp [extractedFile, created]

/-- A regular file that cannot be extracted is not: the call fails. -/
theorem extractEntry_of_cannot {env : Env} {r : Reader} {destPath : String} {e : TarEntry}
    {s : State} (hr : e.header.Typeflag = TypeReg)
    (h : canExtractFile env r (Join [destPath, e.header.Name]) e s = false) :
    ∃ err, (extractEntry env r destPath e s).1 = .error err := by
  rw [extractEntry_of_reg _ _ _ _ _ hr]
  by_cases hc : canCreate env (Join [destPath, e.header.Name]) s = true
  · rw [Create_of_can hc]
    dsimp only
    cases hread : readError env r (created (Join [destPath, e.header.Name]) s) with
    | some err =>
      dsimp only
      rcases hcp : Copy env (Join [destPath, e.header.Name])
        ⟨e.data.data.take (env.served (created (Join [destPath, e.header.Name]) s).trace)⟩
        (some err) (created (Join [destPath, e.header.Name]) s) with ⟨r2, s2⟩
      cases r2 with
      | error err2 => exact ⟨err2, rfl⟩
      | ok u => simpa using (Copy_ok hcp).1
    | none =>
      dsimp only
      rcases hcp : Copy env (Join [destPath, e.header.Name]) e.data e.dataErr
        (created (Join [destPath, e.header.Name]) s) with ⟨r2, s2⟩
      cases r2 with
      | error err2 => exact ⟨err2, rfl⟩
      | ok u =>
        dsimp only
        obtain ⟨hde, hfc, c, m, hfs, rfl⟩ := Copy_ok hcp
        cases hch : env.fault
          (((created (Join [destPath, e.header.Name]) s).log
            (.copy (Join [destPath, e.header.Name]) e.data)).setNode
              (Join [destPath, e.header.Name]) (some (.file e.data m))).trace
          (.chmod (Join [destPath, e.header.Name]) 0o755) with
        | some err2 =>
          rw [Chmod_of_fault hch]
          exact ⟨err2, rfl⟩
        | none =>
          exfalso
          have : canExtractFile env r (Join [destPath, e.header.Name]) e s = true := by
            simp only [canExtractFile, Bool.and_eq_true, decide_eq_true_eq]
            refine ⟨⟨⟨⟨hc, hread⟩, hde⟩, ?_⟩, ?_⟩
            · simpa [created] using hfc
            · simpa [created] using hch
          rw [this] at h
          simp at h
  · obtain ⟨err, he⟩ := Create_of_cannot (Bool.eq_false_iff.2 hc)
    rw [he]
    exact ⟨err, rfl⟩

/-- The extraction of a regular file changes no path but its own. -/
theorem extractEntry_reg_frame (env : Env) (r : Reader) (destPath : String) (e : TarEntry)
    (s : State) (p : String) (hr : e.header.Typeflag = TypeReg)
    (hne : p ≠ Join [destPath, e.header.Name]) :
    (extractEntry env r destPath e s).2.fs p = s.fs p := by
  rw [extractEntry_of_reg _ _ _ _ _ hr]
  by_cases hc : canCreate env (Join [destPath, e.header.Name]) s = true
  · rw [Create_of_can hc]
    dsimp only
    have hcr : (created (Join [destPath, e.header.Name]) s).fs p = s.fs p := by
      simp [created, State.setNode_fs, hne]
    have hcopy : ∀ data rerr,
        (match Copy env (Join [destPath, e.header.Name]) data rerr
            (created (Join [destPath, e.header.Name]) s) with
          | (.error err, s) => ((.error err : Except String Unit), s)
          | (.ok (), s) => Chmod env (Join [destPath, e.header.Name]) 0o755 s).2.fs p
        = s.fs p := by
      intro data rerr
      have hf := Copy_frame env (Join [destPath, e.header.Name]) data rerr
        (created (Join [destPath, e.header.Name]) s) hne
      rcases hcp : Copy env (Join [destPath, e.header.Name]) data rerr
        (created (Join [destPath, e.header.Name]) s) with ⟨r2, s2⟩
      rw [hcp] at hf
      dsimp only at hf
      cases r2 with
      | error err => dsimp only; rw [hf, hcr]
      | ok u =>
        dsimp only
        rw [Chmod_frame _ _ _ _ hne, hf, hcr]
    cases readError env r (created (Join [destPath, e.header.Name]) s) with
    | some err => exact hcopy _ _
    | none => exact hcopy _ _
  · obtain ⟨err, he⟩ := Create_of_cannot (Bool.eq_false_iff.2 hc)
    rw [he]
    rfl

/-- What the extraction of an entry does to a path that exists and is not the path of a
regular-file entry: nothing. -/
theorem extractEntry_frame (env : Env) (r : Reader) (destPath : String) (e : TarEntry)
    (s : State) (p : String)
    (hp : e.header.Typeflag = TypeReg → Join [destPath, e.header.Name] ≠ p)
    (hex : s.fs p ≠ none) : (extractEntry env r destPath e s).2.fs p = s.fs p := by
  by_cases hd : e.header.Typeflag = TypeDir
  · rw [extractEntry_of_dir _ _ _ _ _ hd]
    exact MkdirAll_frame _ _ _ _ _ hex
  · by_cases hr : e.header.Typeflag = TypeReg
    · exact extractEntry_reg_frame env r destPath e s p hr (fun h => hp hr h.symm)
    · rw [extractEntry_skip _ _ _ _ _ (by simp [supported, hd, hr])]

/-- When a regular-file entry is extracted. -/
theorem extractEntry_reg_iff (env : Env) (r : Reader) (destPath : String) (e : TarEntry)
    (s : State) (hr : e.header.Typeflag = TypeReg) :
    (extractEntry env r destPath e s).1 = .ok ()
      ↔ canExtractFile env r (Join [destPath, e.header.Name]) e s = true := by
  constructor
  · intro h
    by_contra hc
    obtain ⟨err, he⟩ := extractEntry_of_cannot hr (Bool.eq_false_iff.2 hc)
    rw [he] at h
    simp at h
  · intro h
    rw [extractEntry_of_can hr h]

/-- An entry that is extracted without error made exactly the calls the specification
lists for it, and printed nothing. -/
theorem extractEntry_ok_trace {env : Env} {r : Reader} {destPath : String} {e : TarEntry}
    {s t : State} (h : extractEntry env r destPath e s = (.ok (), t)) :
    t.trace = s.trace ++ entryCalls destPath e ∧ t.stdout = s.stdout := by
  by_cases hd : e.header.Typeflag = TypeDir
  · rw [extractEntry_of_dir _ _ _ _ _ hd] at h
    have := MkdirAll_trace env (Join [destPath, e.header.Name]) 0o755 s
    rw [h] at this
    simpa [entryCalls, hd] using this
  · by_cases hr : e.header.Typeflag = TypeReg
    · have hcan := (extractEntry_reg_iff env r destPath e s hr).1 (by rw [h])
      rw [extractEntry_of_can hr hcan] at h
      simp only [Prod.mk.injEq, true_and] at h
      subst h
      have hne : TypeReg ≠ TypeDir := by decide
      simp [entryCalls, hr, hne, extractedFile]
    · rw [extractEntry_skip _ _ _ _ _ (by simp [supported, hd, hr])] at h
      simp only [Prod.mk.injEq, true_and] at h
      subst h
      simp [entryCalls, hd, hr]

/-- A directory entry that is extracted without error is a directory under the
destination. -/
theorem extractEntry_dir {env : Env} {r : Reader} {destPath : String} {e : TarEntry}
    {s t : State} (hd : e.header.Typeflag = TypeDir)
    (h : extractEntry env r destPath e s = (.ok (), t)) :
    isDirNode (t.fs (Join [destPath, e.header.Name])) = true := by
  rw [extractEntry_of_dir _ _ _ _ _ hd] at h
  have := MkdirAll_dir env (Join [destPath, e.header.Name]) 0o755 s (by rw [h])
  rw [h] at this
  exact this

/-- A regular-file entry that is extracted without error is a file under the destination
with the bytes of the entry and mode 0755. -/
theorem extractEntry_reg {env : Env} {r : Reader} {destPath : String} {e : TarEntry}
    {s t : State} (hr : e.header.Typeflag = TypeReg)
    (h : extractEntry env r destPath e s = (.ok (), t)) :
    t = extractedFile (Join [destPath, e.header.Name]) e.data s := by
  have hcan := (extractEntry_reg_iff env r destPath e s hr).1 (by rw [h])
  rw [extractEntry_of_can hr hcan] at h
  simp only [Prod.mk.injEq, true_and] at h
  exact h.symm

theorem extractLoop_nil (env : Env) (r : Reader) (destPath : String)
    (tail : Option String) (s : State) :
    extractLoop env r destPath [] tail s
      = match readError env r s with
        | some err => (.error err, s)
        | none =>
          match tail with
          | none => (.ok (), s)
          | some err => (.error err, s) := rfl

theorem extractLoop_cons (env : Env) (r : Reader) (destPath : String) (e : TarEntry)
    (es : List TarEntry) (tail : Option String) (s : State) :
    extractLoop env r destPath (e :: es) tail s
      = match readError env r s with
        | some err => (.error err, s)
        | none =>
          match extractEntry env r destPath e s with
          | (.error err, t) => (.error err, t)
          | (.ok (), t) => extractLoop env r destPath es tail t := rfl

/-- A loop that cannot read the next header ends with the read error, whatever the
entries are. -/
theorem extractLoop_unreadable (env : Env) (r : Reader) (destPath : String)
    (es : List TarEntry) (tail : Option String) (s : State) (err : String)
    (h : readError env r s = some err) :
    extractLoop env r destPath es tail s = (.error err, s) := by
  cases es with
  | nil => rw [extractLoop_nil, h]
  | cons e es => rw [extractLoop_cons, h]

theorem extractLoop_grows (env : Env) (r : Reader) (destPath : String) (es : List TarEntry)
    (tail : Option String) (s : State) :
    Grows s (extractLoop env r destPath es tail s).2 := by
  induction es generalizing s with
  | nil =>
    rw [extractLoop_nil]
    cases readError env r s with
    | some err => exact Grows.still s
    | none => cases tail <;> exact Grows.still s
  | cons e es ih =>
    rw [extractLoop_cons]
    cases readError env r s with
    | some err => exact Grows.still s
    | none =>
      dsimp only
      have he := extractEntry_grows env r destPath e s
      rcases her : extractEntry env r destPath e s with ⟨r1, s1⟩
      rw [her] at he
      cases r1 with
      | error err => exact he
      | ok u => exact he.followedBy (ih s1)

/-- Entries of a type other than directory and regular file do not influence the
extraction: the loop behaves as if they were not in the stream. -/
theorem extractLoop_filter (env : Env) (r : Reader) (destPath : String) (es : List TarEntry)
    (tail : Option String) (s : State) :
    extractLoop env r destPath es tail s
      = extractLoop env r destPath (es.filter supported) tail s := by
  induction es generalizing s with
  | nil => rfl
  | cons e es ih =>
    cases hread : readError env r s with
    | some err =>
      rw [extractLoop_unreadable _ _ _ _ _ _ _ hread, extractLoop_unreadable _ _ _ _ _ _ _ hread]
    | none =>
      cases hs : supported e with
      | false =>
        rw [List.filter_cons_of_neg (by simp [hs])]
        rw [← ih s, extractLoop_cons, hread, extractEntry_skip env r destPath e s hs]
      | true =>
        rw [List.filter_cons_of_pos (by simp [hs])]
        simp only [extractLoop_cons, hread]
        rcases extractEntry env r destPath e s with ⟨r1, s1⟩
        cases r1 with
        | error err => rfl
        | ok u => exact ih s1

/-- The loop over a stream is the loop over its front followed, if that succeeds, by the
loop over the rest. -/
theorem extractLoop_append (env : Env) (r : Reader) (destPath : String)
    (front back : List TarEntry) (tail : Option String) (s : State) :
    extractLoop env r destPath (front ++ back) tail s
      = match extractLoop env r destPath front none s with
        | (.error err, t) => (.error err, t)
        | (.ok (), t) => extractLoop env r destPath back tail t := by
  induction front generalizing s with
  | nil =>
    cases hread : readError env r s with
    | some err =>
      rw [extractLoop_unreadable _ _ _ _ _ _ _ hread, extractLoop_unreadable _ _ _ _ _ _ _ hread]
    | none => simp [extractLoop_nil, hread]
  | cons e es ih =>
    simp only [List.cons_append, extractLoop_cons]
    cases readError env r s with
    | some err => rfl
    | none =>
      dsimp only
      rcases extractEntry env r destPath e s with ⟨r1, s1⟩
      cases r1 with
      | error err => rfl
      | ok u => exact ih s1

/-- An extraction that succeeds made, in stream order, exactly the calls the specification
lists for each entry. -/
theorem extractLoop_ok_trace {env : Env} {r : Reader} {destPath : String}
    {es : List TarEntry} {tail : Option String} {s t : State}
    (h : extractLoop env r destPath es tail s = (.ok (), t)) :
    tail = none ∧ t.trace = s.trace ++ es.flatMap (entryCalls destPath) ∧
      t.stdout = s.stdout := by
  induction es generalizing s with
  | nil =>
    rw [extractLoop_nil] at h
    cases hread : readError env r s with
    | some err => rw [hread] at h; simp at h
    | none =>
      rw [hread] at h
      cases tail with
      | none => simp only [Prod.mk.injEq, true_and] at h; subst h; simp
      | some err => simp at h
  | cons e es ih =>
    rw [extractLoop_cons] at h
    cases hread : readError env r s with
    | some err => rw [hread] at h; simp at h
    | none =>
      rw [hread] at h
      dsimp only at h
      rcases her : extractEntry env r destPath e s with ⟨r1, s1⟩
      rw [her] at h
      cases r1 with
      | error err => simp at h
      | ok u =>
        dsimp only at h
        obtain ⟨h1, h2⟩ := extractEntry_ok_trace her
        obtain ⟨ht, h3, h4⟩ := ih h
        exact ⟨ht, by simp [h3, h1, List.flatMap_cons], by rw [h4, h2]⟩

/-- The loop leaves alone every path that exists and is not the path of one of its
regular-file entries. -/
theorem extractLoop_frame (env : Env) (r : Reader) (destPath : String) (es : List TarEntry)
    (tail : Option String) (s : State) (p : String)
    (hp : ∀ e ∈ es, e.header.Typeflag = TypeReg → Join [destPath, e.header.Name] ≠ p)
    (hex : s.fs p ≠ none) : (extractLoop env r destPath es tail s).2.fs p = s.fs p := by
  induction es generalizing s with
  | nil =>
    rw [extractLoop_nil]
    cases readError env r s with
    | some err => rfl
    | none => cases tail <;> rfl
  | cons e es ih =>
    rw [extractLoop_cons]
    cases readError env r s with
    | some err => rfl
    | none =>
      dsimp only
      have hf := extractEntry_frame env r destPath e s p (hp e (List.mem_cons_self _ _)) hex
      rcases her : extractEntry env r destPath e s with ⟨r1, s1⟩
      rw [her] at hf
      dsimp only at hf
      cases r1 with
      | error err => exact hf
      | ok u =>
        dsimp only
        rw [ih s1 (fun e2 he2 => hp e2 (List.mem_cons_of_mem _ he2)) (by rw [hf]; exact hex), hf]

/-- Where an extraction that succeeds leaves the entries: every directory entry is a
directory, and every regular-file entry that no later entry overwrites is a file with the
bytes of the entry and mode 0755. -/
theorem extractLoop_ok_fs {env : Env} {r : Reader} {destPath : String}
    {es : List TarEntry} {tail : Option String} {s t : State}
    (h : extractLoop env r destPath es tail s = (.ok (), t)) :
    (∀ e ∈ es, e.header.Typeflag = TypeDir →
      isDirNode (t.fs (Join [destPath, e.header.Name])) = true) ∧
    (∀ front e back, es = front ++ e :: back → e.header.Typeflag = TypeReg →
      (∀ e2 ∈ back, e2.header.Typeflag = TypeReg →
        Join [destPath, e2.header.Name] ≠ Join [destPath, e.header.Name]) →
      t.fs (Join [destPath, e.header.Name]) = some (.file e.data 0o755)) := by
  have split : ∀ front e back, es = front ++ e :: back →
      ∃ t1 t2, readError env r t1 = none ∧ extractEntry env r destPath e t1 = (.ok (), t2) ∧
        extractLoop env r destPath back tail t2 = (.ok (), t) := by
    intro front e back hes
    rw [hes, extractLoop_append] at h
    rcases hf : extractLoop env r destPath front none s with ⟨r1, t1⟩
    rw [hf] at h
    cases r1 with
    | error err => simp at h
    | ok u =>
      dsimp only at h
      rw [extractLoop_cons] at h
      cases hread : readError env r t1 with
      | some err => rw [hread] at h; simp at h
      | none =>
        rw [hread] at h
        dsimp only at h
        rcases her : extractEntry env r destPath e t1 with ⟨r2, t2⟩
        rw [her] at h
        cases r2 with
        | error err => simp at h
        | ok u => exact ⟨t1, t2, hread, her, h⟩
  constructor
  · intro e he hd
    obtain ⟨front, back, hes⟩ := List.append_of_mem he
    obtain ⟨t1, t2, _, h2, h3⟩ := split front e back hes
    have hg := extractLoop_grows env r destPath back tail t2
    rw [h3] at hg
    exact hg.dirs _ (extractEntry_dir hd h2)
  · intro front e back hes hr hlast
    obtain ⟨t1, t2, _, h2, h3⟩ := split front e back hes
    have hfs : t2.fs (Join [destPath, e.header.Name]) = some (.file e.data 0o755) := by
      rw [extractEntry_reg hr h2]
      simp [extractedFile]
    have hf := extractLoop_frame env r destPath back tail t2 (Join [destPath, e.header.Name])
      hlast (by rw [hfs]; simp)
    rw [h3] at hf
    dsimp only at hf
    rw [hf, hfs]

/-- With the archive decoded, `extractTarGz` is the loop over its entries. -/
theorem extractTarGz_eq (env : Env) (r : Reader) {bytes : String} {stream : TarStream}
    (destPath : String) (s : State) (hb : r.bytes = .ok bytes)
    (hu : env.untar bytes = .ok stream) :
    extractTarGz env r destPath s
      = extractLoop env r destPath stream.entries stream.tail s := by
  unfold extractTarGz
  cases hread : readError env r s with
  | some err => simp [extractLoop_unreadable _ _ _ _ _ _ _ hread]
  | none => simp [hb, hu]

theorem extractTarGz_grows (env : Env) (r : Reader) (destPath : String) (s : State) :
    Grows s (extractTarGz env r destPath s).2 := by
  unfold extractTarGz
  split
  · exact Grows.still s
  · exact Grows.still s
  · split
    · exact Grows.still s
    · exact extractLoop_grows _ _ _ _ _ _

theorem extractTarGz_ok {env : Env} {r : Reader} {destPath : String} {s t : State}
    (h : extractTarGz env r destPath s = (.ok (), t)) :
    ∃ bytes entries, r.bytes = .ok bytes ∧ env.untar bytes = .ok ⟨entries, none⟩ ∧
      extractLoop env r destPath entries none s = (.ok (), t) := by
  cases hb : r.bytes with
  | error err =>
    unfold extractTarGz at h
    rw [hb] at h
    split at h <;> simp_all
  | ok bytes =>
    cases hu : env.untar bytes with
    | error err =>
      unfold extractTarGz at h
      rw [hb] at h
      split at h
      · simp at h
      · simp at h
      · next b hbb =>
        simp only [Except.ok.injEq] at hbb
        subst hbb
        rw [hu] at h
        simp at h
    | ok stream =>
      rw [extractTarGz_eq env r destPath s hb hu] at h
      obtain ⟨entries, tail⟩ := stream
      obtain ⟨rfl, _, _⟩ := extractLoop_ok_trace h
      exact ⟨bytes, entries, rfl, hu, h⟩

/-- The extraction leaves alone every path that exists and is not the path of one of the
regular-file entries of the archive. -/
theorem extractTarGz_frame (env : Env) (r : Reader) (destPath : String) (s : State)
    (p : String) (hex : s.fs p ≠ none)
    (hp : ∀ bytes stream, r.bytes = .ok bytes → env.untar bytes = .ok stream →
      ∀ e ∈ stream.entries, e.header.Typeflag = TypeReg → Join [destPath, e.header.Name] ≠ p) :
    (extractTarGz env r destPath s).2.fs p = s.fs p := by
  cases hb : r.bytes with
  | error err =>
    unfold extractTarGz
    rw [hb]
    split <;> simp_all
  | ok bytes =>
    cases hu : env.untar bytes with
    | error err =>
      unfold extractTarGz
      rw [hb]
      split
      · rfl
      · rfl
      · next b hbb =>
        simp only [Except.ok.injEq] at hbb
        subst hbb
        rw [hu]
    | ok stream =>
      rw [extractTarGz_eq env r destPath s hb hu]
      exact extractLoop_frame env r destPath _ _ s p (hp bytes stream hb hu) hex

theorem canExtractAll_nil (env : Env) (r : Reader) (destPath : String) (s : State) :
    canExtractAll env r destPath [] s = decide (readError env r s = none) := rfl

theorem canExtractAll_cons (env : Env) (r : Reader) (destPath : String) (e : TarEntry)
    (es : List TarEntry) (s : State) :
    canExtractAll env r destPath (e :: es) s
      = (decide (readError env r s = none) &&
          (if e.header.Typeflag = TypeDir then
            canMkdirAll env (Join [destPath, e.header.Name]) 0o755 s &&
              canExtractAll env r destPath es
                (MkdirAll env (Join [destPath, e.header.Name]) 0o755 s).2
          else if e.header.Typeflag = TypeReg then
            canExtractFile env r (Join [destPath, e.header.Name]) e s &&
              canExtractAll env r destPath es
                (extractedFile (Join [destPath, e.header.Name]) e.data s)
          else canExtractAll env r destPath es s)) := rfl

/-- When the loop over a stream that ends in `io.EOF` succeeds. -/
theorem extractLoop_ok_iff (env : Env) (r : Reader) (destPath : String) (es : List TarEntry)
    (s : State) :
    (extractLoop env r destPath es none s).1 = .ok ()
      ↔ canExtractAll env r destPath es s = true := by
  induction es generalizing s with
  | nil =>
    rw [extractLoop_nil, canExtractAll_nil]
    cases readError env r s <;> simp
  | cons e es ih =>
    rw [extractLoop_cons, canExtractAll_cons]
    cases hread : readError env r s with
    | some err => simp
    | none =>
      simp only [decide_True, Bool.true_and]
      by_cases hd : e.header.Typeflag = TypeDir
      · rw [if_pos hd, extractEntry_of_dir _ _ _ _ _ hd]
        have hiff := MkdirAll_ok_iff env (Join [destPath, e.header.Name]) 0o755 s
        rcases hm : MkdirAll env (Join [destPath, e.header.Name]) 0o755 s with ⟨r1, s1⟩
        rw [hm] at hiff
        cases r1 with
        | error err =>
          have : canMkdirAll env (Join [destPath, e.header.Name]) 0o755 s = false := by
            rw [Bool.eq_false_iff]
            intro h
            have := hiff.2 h
            simp at this
          simp [this]
        | ok u =>
          have : canMkdirAll env (Join [destPath, e.header.Name]) 0o755 s = true := hiff.1 rfl
          simp only [this, Bool.true_and]
          exact ih s1
      · rw [if_neg hd]
        by_cases hr : e.header.Typeflag = TypeReg
        · rw [if_pos hr]
          cases hc : canExtractFile env r (Join [destPath, e.header.Name]) e s with
          | true =>
            rw [extractEntry_of_can hr hc]
            simp only [Bool.true_and]
            exact ih _
          | false =>
            obtain ⟨err, he⟩ := extractEntry_of_cannot hr hc
            rcases hx : extractEntry env r destPath e s with ⟨r1, s1⟩
            rw [hx] at he
            dsimp only at he
            subst he
            simp
        · rw [if_neg hr, extractEntry_skip _ _ _ _ _ (by simp [supported, hd, hr])]
          exact ih s

/-! ## Lemmas: the install workflow -/

theorem ensureDir_grows (env : Env) (path : String) (s : State) :
    Grows s (ensureDir env path s).2 :=
  MkdirAll_grows env path 0o755 s

theorem archSwitch_eq (arch : String) (pkg : Package) :
    (if arch = "386" then Except.ok pkg.AMD.URL.URL
      else if arch = "arm" then .ok pkg.ARM.URL.URL
      else if arch = "amd64" then .ok pkg.AMD.URL.URL
      else if arch = "arm64" then .ok pkg.ARM.URL.URL
      else .error ("[ ! ] unsupported architecture: " ++ arch))
    = match archSlot arch pkg with
      | some url => .ok url
      | none => .error ("[ ! ] unsupported architecture: " ++ arch) := by
  unfold archSlot
  by_cases h1 : arch = "386"
  · simp [h1]
  · by_cases h2 : arch = "arm"
    · simp [h2]
    · by_cases h3 : arch = "amd64"
      · simp [h3]
      · by_cases h4 : arch = "arm64"
        · simp [h4]
        · simp [h1, h2, h3, h4]

/-- The body of `installPackage` once the entry, its URL and the home directory are
known: download, open, create the package directory, extract, remove the archive. -/
theorem installPackage_eq {env : Env} {name : String} {packages : Packages} {pkg : Package}
    {url home : String} (s : State)
    (hfind : findPackage name packages.Packages = some pkg)
    (hslot : archSlot env.goarch pkg = some url) (hhome : env.home = .ok home) :
    installPackage env name packages s
      = match downloadFile env url
            (Join [Join [home, ".local", "reposx"], name ++ ".tar.gz"]) s with
        | (.error err, s1) => (.error err, s1)
        | (.ok (), s1) =>
          match Open env (Join [Join [home, ".local", "reposx"], name ++ ".tar.gz"])
              (s1.print ("[...] extracting "
                ++ Join [Join [home, ".local", "reposx"], name ++ ".tar.gz"] ++ "\n")) with
          | .error err => (.error err, s1.print ("[...] extracting "
                ++ Join [Join [home, ".local", "reposx"], name ++ ".tar.gz"] ++ "\n"))
          | .ok file =>
            match ensureDir env (Join [Join [home, ".local", "reposx"], name])
                (s1.print ("[...] extracting "
                  ++ Join [Join [home, ".local", "reposx"], name ++ ".tar.gz"] ++ "\n")) with
            | (.error err, s3) => (.error err, s3)
            | (.ok (), s3) =>
              match extractTarGz env file (Join [Join [home, ".local", "reposx"], name]) s3 with
              | (.error err, s4) => (.error err, s4)
              | (.ok (), s4) =>
                Remove env (Join [Join [home, ".local", "reposx"], name ++ ".tar.gz"]) s4 := by
  unfold installPackage
  simp only [hfind, archSwitch_eq, hslot, getLocalDir, hhome]

theorem installPackage_unsupported {env : Env} {name : String} {packages : Packages}
    {pkg : Package} (s : State)
    (hfind : findPackage name packages.Packages = some pkg)
    (hslot : archSlot env.goarch pkg = none) :
    installPackage env name packages s
      = (.error ("[ ! ] unsupported architecture: " ++ env.goarch), s) := by
  unfold installPackage
  simp only [hfind, archSwitch_eq, hslot]

theorem installPackage_no_home {env : Env} {name : String} {packages : Packages}
    {pkg : Package} {url err : String} (s : State)
    (hfind : findPackage name packages.Packages = some pkg)
    (hslot : archSlot env.goarch pkg = some url) (hhome : env.home = .error err) :
    installPackage env name packages s = (.error err, s) := by
  unfold installPackage
  simp only [hfind, archSwitch_eq, hslot, getLocalDir, hhome]

/-- The calls of an install that found its entry and its URL: the request for that URL
comes first, everything after it creates or writes, and only the archive is removed. -/
theorem installPackage_calls {env : Env} {name : String} {packages : Packages} {pkg : Package}
    {url home : String} (s : State)
    (hfind : findPackage name packages.Packages = some pkg)
    (hslot : archSlot env.goarch pkg = some url) (hhome : env.home = .ok home) :
    ∃ rest, (installPackage env name packages s).2.trace = s.trace ++ Call.httpGet url :: rest ∧
      ∀ c ∈ rest, c.isLocal = true ∨
        c = Call.remove (Join [Join [home, ".local", "reposx"], name ++ ".tar.gz"]) := by
  rw [installPackage_eq s hfind hslot hhome]
  obtain ⟨r0, h0, hl0⟩ := downloadFile_calls env url
    (Join [Join [home, ".local", "reposx"], name ++ ".tar.gz"]) s
  rcases hd : downloadFile env url
    (Join [Join [home, ".local", "reposx"], name ++ ".tar.gz"]) s with ⟨r, s1⟩
  rw [hd] at h0
  dsimp only at h0
  cases r with
  | error err => exact ⟨r0, h0, fun c hc => Or.inl (hl0 c hc)⟩
  | ok u =>
    dsimp only
    cases Open env (Join [Join [home, ".local", "reposx"], name ++ ".tar.gz"])
      (s1.print ("[...] extracting "
        ++ Join [Join [home, ".local", "reposx"], name ++ ".tar.gz"] ++ "\n")) with
    | error err => exact ⟨r0, h0, fun c hc => Or.inl (hl0 c hc)⟩
    | ok file =>
      dsimp only
      obtain ⟨r3, h3, hl3⟩ := (ensureDir_grows env (Join [Join [home, ".local", "reposx"], name])
        (s1.print ("[...] extracting "
          ++ Join [Join [home, ".local", "reposx"], name ++ ".tar.gz"] ++ "\n"))).trace
      rcases he : ensureDir env (Join [Join [home, ".local", "reposx"], name])
        (s1.print ("[...] extracting "
          ++ Join [Join [home, ".local", "reposx"], name ++ ".tar.gz"] ++ "\n")) with ⟨r, s3⟩
      rw [he] at h3
      simp only [State.print_trace] at h3
      have hl03 : ∀ c ∈ r0 ++ r3, c.isLocal = true := by
        intro c hc
        rcases List.mem_append.1 hc with h | h
        · exact hl0 c h
        · exact hl3 c h
      cases r with
      | error err =>
        exact ⟨r0 ++ r3, by simp [h3, h0], fun c hc => Or.inl (hl03 c hc)⟩
      | ok u =>
        dsimp only
        obtain ⟨r4, h4, hl4⟩ := (extractTarGz_grows env file
          (Join [Join [home, ".local", "reposx"], name]) s3).trace
        rcases hx : extractTarGz env file (Join [Join [home, ".local", "reposx"], name]) s3
          with ⟨r, s4⟩
        rw [hx] at h4
        dsimp only at h4
        have hl034 : ∀ c ∈ r0 ++ r3 ++ r4, c.isLocal = true := by
          intro c hc
          rcases List.mem_append.1 hc with h | h
          · exact hl03 c h
          · exact hl4 c h
        cases r with
        | error err =>
          exact ⟨r0 ++ r3 ++ r4, by simp [h4, h3, h0], fun c hc => Or.inl (hl034 c hc)⟩
        | ok u =>
          dsimp only
          refine ⟨r0 ++ r3 ++ r4 ++
            [.remove (Join [Join [home, ".local", "reposx"], name ++ ".tar.gz"])], ?_, ?_⟩
          · simp [(Remove_trace env _ s4).1, h4, h3, h0]
          · intro c hc
            rcases List.mem_append.1 hc with h | h
            · exact Or.inl (hl034 c h)
            · exact Or.inr (by simpa using h)

theorem Call.isLocal_ne_get {c : Call} (h : c.isLocal = true ∨ ∃ p, c = Call.remove p)
    (u : String) : c ≠ Call.httpGet u := by
  rintro rfl
  rcases h with h | ⟨p, h⟩
  · simp [Call.isLocal] at h
  · simp at h

theorem foldl_dirs (root : String) (entries : List DirEntry) (init : List String) :
    entries.foldl
        (fun paths entry => if entry.IsDir then paths ++ [Join [root, entry.Name]] else paths)
        init
      = init ++ (entries.filter (fun e => e.IsDir)).map (fun e => Join [root, e.Name]) := by
  induction entries generalizing init with
  | nil => simp
  | cons e es ih =>
    simp only [List.foldl_cons]
    rw [ih]
    cases h : e.IsDir <;> simp [h]

/-- The outcomes of an install that found its entry, its URL and the home directory: the
first step that fails ends the install with its error and in the state it left; when
download, open, directory creation and extraction succeed, the install ends with the
removal of the archive. -/
theorem installPackage_cases {env : Env} {name : String} {packages : Packages} {pkg : Package}
    {url home pp ep : String} (s : State)
    (hfind : findPackage name packages.Packages = some pkg)
    (hslot : archSlot env.goarch pkg = some url) (hhome : env.home = .ok home)
    (hpp : pp = Join [Join [home, ".local", "reposx"], name ++ ".tar.gz"])
    (hep : ep = Join [Join [home, ".local", "reposx"], name]) :
    (∃ err s1, downloadFile env url pp s = (.error err, s1) ∧
      installPackage env name packages s = (.error err, s1)) ∨
    (∃ s1 err, downloadFile env url pp s = (.ok (), s1) ∧
      Open env pp (s1.print ("[...] extracting " ++ pp ++ "\n")) = .error err ∧
      installPackage env name packages s
        = (.error err, s1.print ("[...] extracting " ++ pp ++ "\n"))) ∨
    (∃ s1 file err s3, downloadFile env url pp s = (.ok (), s1) ∧
      Open env pp (s1.print ("[...] extracting " ++ pp ++ "\n")) = .ok file ∧
      ensureDir env ep (s1.print ("[...] extracting " ++ pp ++ "\n")) = (.error err, s3) ∧
      installPackage env name packages s = (.error err, s3)) ∨
    (∃ s1 file s3 err s4, downloadFile env url pp s = (.ok (), s1) ∧
      Open env pp (s1.print ("[...] extracting " ++ pp ++ "\n")) = .ok file ∧
      ensureDir env ep (s1.print ("[...] extracting " ++ pp ++ "\n")) = (.ok (), s3) ∧
      extractTarGz env file ep s3 = (.error err, s4) ∧
      installPackage env name packages s = (.error err, s4)) ∨
    (∃ s1 file s3 s4, downloadFile env url pp s = (.ok (), s1) ∧
      Open env pp (s1.print ("[...] extracting " ++ pp ++ "\n")) = .ok file ∧
      ensureDir env ep (s1.print ("[...] extracting " ++ pp ++ "\n")) = (.ok (), s3) ∧
      extractTarGz env file ep s3 = (.ok (), s4) ∧
      installPackage env name packages s = Remove env pp s4) := by
  subst hpp hep
  rw [installPackage_eq s hfind hslot hhome]
  rcases hd : downloadFile env url
    (Join [Join [home, ".local", "reposx"], name ++ ".tar.gz"]) s with ⟨r, s1⟩
  cases r with
  | error err => exact Or.inl ⟨err, s1, rfl, rfl⟩
  | ok u =>
    dsimp only
    cases ho : Open env (Join [Join [home, ".local", "reposx"], name ++ ".tar.gz"])
      (s1.print ("[...] extracting "
        ++ Join [Join [home, ".local", "reposx"], name ++ ".tar.gz"] ++ "\n")) with
    | error err => exact Or.inr (Or.inl ⟨s1, err, rfl, ho, rfl⟩)
    | ok file =>
      dsimp only
      rcases he : ensureDir env (Join [Join [home, ".local", "reposx"], name])
        (s1.print ("[...] extracting "
          ++ Join [Join [home, ".local", "reposx"], name ++ ".tar.gz"] ++ "\n")) with ⟨r, s3⟩
      cases r with
      | error err => exact Or.inr (Or.inr (Or.inl ⟨s1, file, err, s3, rfl, ho, he, rfl⟩))
      | ok u =>
        dsimp only
        rcases hx : extractTarGz env file (Join [Join [home, ".local", "reposx"], name]) s3
          with ⟨r, s4⟩
        cases r with
        | error err =>
          exact Or.inr (Or.inr (Or.inr (Or.inl ⟨s1, file, s3, err, s4, rfl, ho, he, hx, rfl⟩)))
        | ok u =>
          exact Or.inr (Or.inr (Or.inr (Or.inr ⟨s1, file, s3, s4, rfl, ho, he, hx, rfl⟩)))

theorem entryCalls_local (destPath : String) (e : TarEntry) :
    ∀ c ∈ entryCalls destPath e, c.isLocal = true := by
  unfold entryCalls
  split
  · simp [Call.isLocal]
  · split <;> simp [Call.isLocal]

theorem filter_isGet_of_local (cs : List Call) (h : ∀ c ∈ cs, c.isLocal = true) :
    cs.filter Call.isGet = [] := by
  apply List.filter_eq_nil_iff.2
  intro c hc
  have := h c hc
  cases c <;> simp_all [Call.isLocal, Call.isGet]

theorem Call.isLocal_ne_remove {c : Call} (h : c.isLocal = true) (p : String) :
    c ≠ Call.remove p := by
  rintro rfl
  simp [Call.isLocal] at h

/-- The error for a name that is not in the index is a resolution error. -/
theorem isResolutionError_notFound (name : String) :
    isResolutionError ("package " ++ name ++ " not found") = true := by
  have h1 : ("package " ++ name ++ " not found").data
      = "package ".data ++ (name.data ++ " not found".data) := by
    simp [String.data_append]
  have h2 : (("package " ++ name ++ " not found").data).drop 8
      = name.data ++ " not found".data := by
    rw [h1]
    rfl
  unfold isResolutionError
  rw [h2, h1]
  simp

/-- The error for an architecture without a slot is a resolution error. -/
theorem isResolutionError_unsupported (arch : String) :
    isResolutionError ("[ ! ] unsupported architecture: " ++ arch) = true := by
  unfold isResolutionError
  simp [String.data_append]

/-- Opening a file that exists fails only when the environment says so. -/
theorem Open_of_file (env : Env) {path : String} {s : State} (content : String) (mode : Nat)
    (hfs : s.fs path = some (.file content mode)) :
    Open env path s
      = match env.readFault s.trace (.open path) with
        | some err => .error err
        | none => .ok ⟨path, .ok content⟩ := by
  unfold Open
  cases env.readFault s.trace (.open path) with
  | some err => rfl
  | none => simp [hfs]

/-- An install that succeeds, step by step: the archive was downloaded completely and
written to `<root>/<name>.tar.gz`, that file was opened, the package directory
`<root>/<name>` was created, the entries of the archive were extracted into it while the
archive was read, and the archive was removed. -/
theorem installPackage_ok {env : Env} {name : String} {packages : Packages} {pkg : Package}
    {url home : String} {s t : State}
    (hfind : findPackage name packages.Packages = some pkg)
    (hslot : archSlot env.goarch pkg = some url) (hhome : env.home = .ok home)
    (h : installPackage env name packages s = (.ok (), t)) :
    ∃ body entries s4, url ≠ "" ∧ env.net url = .ok ⟨body, none⟩ ∧
      env.untar body = .ok ⟨entries, none⟩ ∧
      downloadFile env url (Join [Join [home, ".local", "reposx"], name ++ ".tar.gz"]) s
        = (.ok (),
            downloaded url (Join [Join [home, ".local", "reposx"], name ++ ".tar.gz"]) body s) ∧
      Open env (Join [Join [home, ".local", "reposx"], name ++ ".tar.gz"])
          ((downloaded url (Join [Join [home, ".local", "reposx"], name ++ ".tar.gz"]) body
            s).print ("[...] extracting "
              ++ Join [Join [home, ".local", "reposx"], name ++ ".tar.gz"] ++ "\n"))
        = .ok ⟨Join [Join [home, ".local", "reposx"], name ++ ".tar.gz"], .ok body⟩ ∧
      (ensureDir env (Join [Join [home, ".local", "reposx"], name])
          ((downloaded url (Join [Join [home, ".local", "reposx"], name ++ ".tar.gz"]) body
            s).print ("[...] extracting "
              ++ Join [Join [home, ".local", "reposx"], name ++ ".tar.gz"] ++ "\n"))).1
        = .ok () ∧
      extractLoop env ⟨Join [Join [home, ".local", "reposx"], name ++ ".tar.gz"], .ok body⟩
          (Join [Join [home, ".local", "reposx"], name]) entries none
          (ensureDir env (Join [Join [home, ".local", "reposx"], name])
            ((downloaded url (Join [Join [home, ".local", "reposx"], name ++ ".tar.gz"]) body
              s).print ("[...] extracting "
                ++ Join [Join [home, ".local", "reposx"], name ++ ".tar.gz"] ++ "\n"))).2
        = (.ok (), s4) ∧
      Remove env (Join [Join [home, ".local", "reposx"], name ++ ".tar.gz"]) s4 = (.ok (), t) := by
  rcases installPackage_cases s hfind hslot hhome rfl rfl with
    ⟨err, s1, _, h1⟩ | ⟨s1, err, _, _, h1⟩ | ⟨s1, file, err, s3, _, _, _, h1⟩ |
    ⟨s1, file, s3, err, s4, _, _, _, _, h1⟩ | ⟨s1, file, s3, s4, hd, ho, he, hx, h1⟩
  · rw [h1] at h; simp at h
  · rw [h1] at h; simp at h
  · rw [h1] at h; simp at h
  · rw [h1] at h; simp at h
  · rw [h1] at h
    obtain ⟨body, hurl, hnet, _, _, rfl⟩ := downloadFile_ok hd
    have hfile : file = ⟨Join [Join [home, ".local", "reposx"], name ++ ".tar.gz"],
        .ok body⟩ := by
      rw [Open_of_file env body
        (createMode (Join [Join [home, ".local", "reposx"], name ++ ".tar.gz"]) s)
        (by simp)] at ho
      split at ho
      · simp at ho
      · simpa using ho.symm
    subst hfile
    obtain ⟨bytes, entries, hb, hu, hl⟩ := extractTarGz_ok hx
    simp only [Except.ok.injEq] at hb
    subst hb
    refine ⟨body, entries, s4, hurl, hnet, hu, hd, ho, by rw [he], ?_, h⟩
    rw [he]
    exact hl

/-! ## The claims -/

/-- C1: for every index, every package name that is the name of no entry of the index
(the empty index included), every environment (so whatever the host architecture) and
every state, `installPackage` returns the error `package <name> not found` and leaves
the state as it was: no call is added to the trace (no request, no download, no directory
creation, no removal), the file system is unchanged and nothing is printed. -/
theorem installPackage_not_found (env : Env) (packageName : String) (packages : Packages)
    (s : State) (h : ∀ p ∈ packages.Packages, p.Name ≠ packageName) :
    installPackage env packageName packages s
      = (.error ("package " ++ packageName ++ " not found"), s) := by
  unfold installPackage
  rw [findPackage_eq_none h]

/-- C1, on the example index and on the empty index. -/
theorem installPackage_not_found_witness :
    (∀ p ∈ demoIndex.Packages, p.Name ≠ "baz") ∧
    installPackage demoEnv "baz" demoIndex freshState
      = (.error "package baz not found", freshState) ∧
    installPackage demoEnv "foo" ⟨"packages", []⟩ freshState
      = (.error "package foo not found", freshState) :=
  ⟨by decide,
   installPackage_not_found demoEnv "baz" demoIndex freshState (by decide),
   installPackage_not_found demoEnv "foo" ⟨"packages", []⟩ freshState (by simp)⟩

/-- C2: for an entry found in the index, the URL `installPackage` requests depends on the
host architecture only: on `386` and `amd64` the one request made is for the AMD URL of
the entry, on `arm` and `arm64` for its ARM URL (the request is the first call, and no
later call is a request); on every other architecture `installPackage` returns the error
`[ ! ] unsupported architecture: <arch>` and leaves the state as it was, so nothing is
downloaded and no directory is created. -/
theorem installPackage_arch_slot (env : Env) (packageName : String) (packages : Packages)
    (pkg : Package) (s : State)
    (hfind : findPackage packageName packages.Packages = some pkg) :
    ((env.goarch = "386" ∨ env.goarch = "amd64") → ∀ home, env.home = .ok home →
      ∃ rest, (installPackage env packageName packages s).2.trace
          = s.trace ++ Call.httpGet pkg.AMD.URL.URL :: rest ∧
        ∀ c ∈ rest, ∀ u, c ≠ Call.httpGet u) ∧
    ((env.goarch = "arm" ∨ env.goarch = "arm64") → ∀ home, env.home = .ok home →
      ∃ rest, (installPackage env packageName packages s).2.trace
          = s.trace ++ Call.httpGet pkg.ARM.URL.URL :: rest ∧
        ∀ c ∈ rest, ∀ u, c ≠ Call.httpGet u) ∧
    (env.goarch ≠ "386" ∧ env.goarch ≠ "amd64" ∧ env.goarch ≠ "arm" ∧ env.goarch ≠ "arm64" →
      installPackage env packageName packages s
        = (.error ("[ ! ] unsupported architecture: " ++ env.goarch), s)) := by
  refine ⟨?_, ?_, ?_⟩
  · intro harch home hhome
    have hslot : archSlot env.goarch pkg = some pkg.AMD.URL.URL := by
      simp [archSlot, harch]
    obtain ⟨rest, h1, h2⟩ := installPackage_calls s hfind hslot hhome
    refine ⟨rest, h1, fun c hc u => Call.isLocal_ne_get ?_ u⟩
    rcases h2 c hc with h | h
    · exact Or.inl h
    · exact Or.inr ⟨_, h⟩
  · intro harch home hhome
    have hslot : archSlot env.goarch pkg = some pkg.ARM.URL.URL := by
      rcases harch with h | h <;> simp [archSlot, h]
    obtain ⟨rest, h1, h2⟩ := installPackage_calls s hfind hslot hhome
    refine ⟨rest, h1, fun c hc u => Call.isLocal_ne_get ?_ u⟩
    rcases h2 c hc with h | h
    · exact Or.inl h
    · exact Or.inr ⟨_, h⟩
  · rintro ⟨h1, h2, h3, h4⟩
    exact installPackage_unsupported s hfind (by simp [archSlot, h1, h2, h3, h4])

/-- C2, on the example index: the amd64 host requests the AMD URL of `foo`, a riscv64 host
gets the error naming the architecture. -/
theorem installPackage_arch_slot_witness :
    findPackage "foo" demoIndex.Packages = some ⟨"foo", ⟨⟨"u"⟩⟩, ⟨⟨"v"⟩⟩⟩ ∧
    (∃ rest, (installPackage demoEnv "foo" demoIndex freshState).2.trace
        = freshState.trace ++ Call.httpGet "u" :: rest ∧ ∀ c ∈ rest, ∀ u, c ≠ Call.httpGet u) ∧
    installPackage { demoEnv with goarch := "riscv64" } "foo" demoIndex freshState
      = (.error "[ ! ] unsupported architecture: riscv64", freshState) :=
  ⟨by decide,
   (installPackage_arch_slot demoEnv "foo" demoIndex ⟨"foo", ⟨⟨"u"⟩⟩, ⟨⟨"v"⟩⟩⟩ freshState
      (by decide)).1 (Or.inr rfl) "/h" rfl,
   (installPackage_arch_slot { demoEnv with goarch := "riscv64" } "foo" demoIndex
      ⟨"foo", ⟨⟨"u"⟩⟩, ⟨⟨"v"⟩⟩⟩ freshState (by decide)).2.2 (by decide)⟩

/-- C3: let the index hold at least one entry named `packageName` (duplicates allowed),
`pkg` being the FIRST of them, and let the architecture be a recognized one with slot
`url`.  When every step succeeds (the home directory resolves, the URL is populated, the
network answers it with a complete body that decodes to an archive, the archive file can
be created, written and opened, the package directory exists or can be created, every
entry of the archive can be extracted in its turn while the archive is read, and the
environment lets the removal through), `installPackage` returns without error.  And
whenever it returns without error, the home directory resolved, the URL is populated, and
the install did this: it made exactly one request, for `url`, and wrote the body it got
to `<root>/<name>.tar.gz`; it created the directory `<root>/<name>`; it extracted the
entries of the archive decoded from that body into `<root>/<name>`; it removed
`<root>/<name>.tar.gz`.  These are all the calls it made, in this order.  Afterwards the
archive is gone, `<root>/<name>` is a directory, every directory entry of the archive is
a directory, and every regular-file entry that no later entry overwrites is a file with
the bytes of the entry and mode 0755. -/
theorem installPackage_success (env : Env) (packageName : String) (packages : Packages)
    (front back : List Package) (pkg : Package) (url : String) (s : State)
    (hidx : packages.Packages = front ++ pkg :: back)
    (hfront : ∀ p ∈ front, p.Name ≠ packageName)
    (hname : pkg.Name = packageName)
    (hslot : archSlot env.goarch pkg = some url) :
    (∀ home body entries, env.home = .ok home → url ≠ "" →
      env.net url = .ok ⟨body, none⟩ → env.untar body = .ok ⟨entries, none⟩ →
      canCreate env (archivePath home packageName) (s.log (.httpGet url)) = true →
      env.fault (s.trace ++ [.httpGet url, .create (archivePath home packageName)])
        (.copy (archivePath home packageName) body) = none →
      env.readFault
        (s.trace ++ [.httpGet url, .create (archivePath home packageName),
          .copy (archivePath home packageName) body])
        (.open (archivePath home packageName)) = none →
      canMkdirAll env (packageDir home packageName) 0o755
        ((downloaded url (archivePath home packageName) body s).print
          ("[...] extracting " ++ archivePath home packageName ++ "\n")) = true →
      canExtractAll env ⟨archivePath home packageName, .ok body⟩ (packageDir home packageName)
        entries
        (ensureDir env (packageDir home packageName)
          ((downloaded url (archivePath home packageName) body s).print
            ("[...] extracting " ++ archivePath home packageName ++ "\n"))).2 = true →
      env.fault
        (s.trace ++
          ([.httpGet url, .create (archivePath home packageName),
            .copy (archivePath home packageName) body,
            .mkdirAll (packageDir home packageName) 0o755]
            ++ entries.flatMap (entryCalls (packageDir home packageName))))
        (.remove (archivePath home packageName)) = none →
      (installPackage env packageName packages s).1 = .ok ()) ∧
    (∀ t, installPackage env packageName packages s = (.ok (), t) →
      ∃ home body entries s4,
        env.home = .ok home ∧ url ≠ "" ∧ env.net url = .ok ⟨body, none⟩ ∧
        env.untar body = .ok ⟨entries, none⟩ ∧
        downloadFile env url (archivePath home packageName) s
          = (.ok (), downloaded url (archivePath home packageName) body s) ∧
        (downloaded url (archivePath home packageName) body s).fs (archivePath home packageName)
          = some (.file body (createMode (archivePath home packageName) s)) ∧
        extractTarGz env ⟨archivePath home packageName, .ok body⟩ (packageDir home packageName)
          (ensureDir env (packageDir home packageName)
            ((downloaded url (archivePath home packageName) body s).print
              ("[...] extracting " ++ archivePath home packageName ++ "\n"))).2
          = (.ok (), s4) ∧
        t = (s4.log (.remove (archivePath home packageName))).setNode
          (archivePath home packageName) none ∧
        t.trace = s.trace ++
          ([.httpGet url, .create (archivePath home packageName),
            .copy (archivePath home packageName) body,
            .mkdirAll (packageDir home packageName) 0o755]
            ++ entries.flatMap (entryCalls (packageDir home packageName))
            ++ [.remove (archivePath home packageName)]) ∧
        (t.trace.drop s.trace.length).filter Call.isGet = [.httpGet url] ∧
        t.fs (archivePath home packageName) = none ∧
        isDirNode (t.fs (packageDir home packageName)) = true ∧
        (∀ e ∈ entries, e.header.Typeflag = TypeDir →
          isDirNode (t.fs (Join [packageDir home packageName, e.header.Name])) = true) ∧
        (∀ before e after, entries = before ++ e :: after → e.header.Typeflag = TypeReg →
          (∀ e2 ∈ after, e2.header.Typeflag = TypeReg →
            Join [packageDir home packageName, e2.header.Name]
              ≠ Join [packageDir home packageName, e.header.Name]) →
          Join [packageDir home packageName, e.header.Name] ≠ archivePath home packageName →
          t.fs (Join [packageDir home packageName, e.header.Name])
            = some (.file e.data 0o755))) := by
  have hfind : findPackage packageName packages.Packages = some pkg := by
    rw [hidx]
    exact findPackage_first hfront hname
  constructor
  · intro home body entries hhome hurl hnet hu hcreate hcopy hopen hmk hall hrm
    simp only [archivePath, packageDir] at *
    have hd := downloadFile_of_can hurl hnet hcreate hcopy
    have ho := Open_of_file env body
      (createMode (Join [Join [home, ".local", "reposx"], packageName ++ ".tar.gz"]) s)
      (show ((downloaded url (Join [Join [home, ".local", "reposx"], packageName ++ ".tar.gz"])
          body s).print ("[...] extracting "
            ++ Join [Join [home, ".local", "reposx"], packageName ++ ".tar.gz"] ++ "\n")).fs
          (Join [Join [home, ".local", "reposx"], packageName ++ ".tar.gz"]) = _ by simp)
    have hopen2 : env.readFault
        ((downloaded url (Join [Join [home, ".local", "reposx"], packageName ++ ".tar.gz"])
          body s).print ("[...] extracting "
            ++ Join [Join [home, ".local", "reposx"], packageName ++ ".tar.gz"] ++ "\n")).trace
        (.open (Join [Join [home, ".local", "reposx"], packageName ++ ".tar.gz"])) = none :=
      hopen
    rw [hopen2] at ho
    dsimp only at ho
    have hmk2 := (MkdirAll_ok_iff env _ _ _).2 hmk
    have htr3 := (MkdirAll_trace env (Join [Join [home, ".local", "reposx"], packageName])
      0o755 ((downloaded url (Join [Join [home, ".local", "reposx"], packageName ++ ".tar.gz"])
        body s).print ("[...] extracting "
          ++ Join [Join [home, ".local", "reposx"], packageName ++ ".tar.gz"] ++ "\n"))).1
    rcases he : ensureDir env (Join [Join [home, ".local", "reposx"], packageName])
      ((downloaded url (Join [Join [home, ".local", "reposx"], packageName ++ ".tar.gz"])
        body s).print ("[...] extracting "
          ++ Join [Join [home, ".local", "reposx"], packageName ++ ".tar.gz"] ++ "\n"))
      with ⟨r3, s3⟩
    have he2 : MkdirAll env (Join [Join [home, ".local", "reposx"], packageName]) 0o755
      ((downloaded url (Join [Join [home, ".local", "reposx"], packageName ++ ".tar.gz"])
        body s).print ("[...] extracting "
          ++ Join [Join [home, ".local", "reposx"], packageName ++ ".tar.gz"] ++ "\n"))
      = (r3, s3) := he
    have hg3 := ensureDir_grows env (Join [Join [home, ".local", "reposx"], packageName])
      ((downloaded url (Join [Join [home, ".local", "reposx"], packageName ++ ".tar.gz"])
        body s).print ("[...] extracting "
          ++ Join [Join [home, ".local", "reposx"], packageName ++ ".tar.gz"] ++ "\n"))
    rw [he] at hall hg3
    rw [he2] at hmk2 htr3
    dsimp only at hall hmk2 hg3 htr3
    subst hmk2
    have hlok := (extractLoop_ok_iff env
      ⟨Join [Join [home, ".local", "reposx"], packageName ++ ".tar.gz"], .ok body⟩
      (Join [Join [home, ".local", "reposx"], packageName]) entries s3).2 hall
    rcases hl : extractLoop env
      ⟨Join [Join [home, ".local", "reposx"], packageName ++ ".tar.gz"], .ok body⟩
      (Join [Join [home, ".local", "reposx"], packageName]) entries none s3 with ⟨r4, s4⟩
    rw [hl] at hlok
    dsimp only at hlok
    subst hlok
    have hx : extractTarGz env
        ⟨Join [Join [home, ".local", "reposx"], packageName ++ ".tar.gz"], .ok body⟩
        (Join [Join [home, ".local", "reposx"], packageName]) s3 = (.ok (), s4) := by
      rw [extractTarGz_eq env
        ⟨Join [Join [home, ".local", "reposx"], packageName ++ ".tar.gz"], .ok body⟩
        (Join [Join [home, ".local", "reposx"], packageName]) s3 rfl hu]
      exact hl
    have hg4 := extractTarGz_grows env
      ⟨Join [Join [home, ".local", "reposx"], packageName ++ ".tar.gz"], .ok body⟩
      (Join [Join [home, ".local", "reposx"], packageName]) s3
    rw [hx] at hg4
    have hex : s4.fs (Join [Join [home, ".local", "reposx"], packageName ++ ".tar.gz"])
        ≠ none :=
      hg4.keeps _ (hg3.keeps _ (by simp))
    obtain ⟨_, htr4, _⟩ := extractLoop_ok_trace hl
    have hrm2 : env.fault s4.trace
        (.remove (Join [Join [home, ".local", "reposx"], packageName ++ ".tar.gz"])) = none := by
      rw [htr4, htr3]
      simpa using hrm
    rw [installPackage_eq s hfind hslot hhome]
    simp only [hd, ho, he, hx]
    rw [Remove_of_exists hex hrm2]
  · intro t hok
    cases hh : env.home with
    | error err =>
      rw [installPackage_no_home s hfind hslot hh] at hok
      simp at hok
    | ok home =>
      obtain ⟨body, entries, s4, hurl, hnet, hu, hd, ho, he, hl, hr⟩ :=
        installPackage_ok hfind hslot hh hok
      simp only [archivePath, packageDir]
      have hx := extractTarGz_eq env
        ⟨Join [Join [home, ".local", "reposx"], packageName ++ ".tar.gz"], .ok body⟩
        (Join [Join [home, ".local", "reposx"], packageName])
        (ensureDir env (Join [Join [home, ".local", "reposx"], packageName])
          ((downloaded url (Join [Join [home, ".local", "reposx"], packageName ++ ".tar.gz"])
            body s).print ("[...] extracting "
              ++ Join [Join [home, ".local", "reposx"], packageName ++ ".tar.gz"] ++ "\n"))).2
        rfl hu
      dsimp only at hx
      rw [hl] at hx
      obtain ⟨_, hex4, ht⟩ := Remove_ok hr
      -- the states in between
      have hg3 := ensureDir_grows env (Join [Join [home, ".local", "reposx"], packageName])
        ((downloaded url (Join [Join [home, ".local", "reposx"], packageName ++ ".tar.gz"])
          body s).print ("[...] extracting "
            ++ Join [Join [home, ".local", "reposx"], packageName ++ ".tar.gz"] ++ "\n"))
      have hdir3 := MkdirAll_dir env (Join [Join [home, ".local", "reposx"], packageName]) 0o755
        ((downloaded url (Join [Join [home, ".local", "reposx"], packageName ++ ".tar.gz"])
          body s).print ("[...] extracting "
            ++ Join [Join [home, ".local", "reposx"], packageName ++ ".tar.gz"] ++ "\n")) he
      have htr3 := (MkdirAll_trace env (Join [Join [home, ".local", "reposx"], packageName])
        0o755 ((downloaded url (Join [Join [home, ".local", "reposx"], packageName ++ ".tar.gz"])
          body s).print ("[...] extracting "
            ++ Join [Join [home, ".local", "reposx"], packageName ++ ".tar.gz"] ++ "\n"))).1
      have hg4 := extractLoop_grows env
        ⟨Join [Join [home, ".local", "reposx"], packageName ++ ".tar.gz"], .ok body⟩
        (Join [Join [home, ".local", "reposx"], packageName]) entries none
        (ensureDir env (Join [Join [home, ".local", "reposx"], packageName])
          ((downloaded url (Join [Join [home, ".local", "reposx"], packageName ++ ".tar.gz"])
            body s).print ("[...] extracting "
              ++ Join [Join [home, ".local", "reposx"], packageName ++ ".tar.gz"] ++ "\n"))).2
      rw [hl] at hg4
      dsimp only at hg4
      have hfile4 : isFileNode
          (s4.fs (Join [Join [home, ".local", "reposx"], packageName ++ ".tar.gz"])) = true :=
        hg4.files _ (hg3.files _ (by simp [isFileNode]))
      have hdir4 : isDirNode (s4.fs (Join [Join [home, ".local", "reposx"], packageName]))
          = true := hg4.dirs _ hdir3
      have hnotpp : ∀ q, isDirNode (s4.fs q) = true →
          q ≠ Join [Join [home, ".local", "reposx"], packageName ++ ".tar.gz"] := by
        rintro q hq rfl
        rw [isDirNode_isFileNode hq] at hfile4
        simp at hfile4
      obtain ⟨_, htr4, _⟩ := extractLoop_ok_trace hl
      have htr : t.trace = s.trace ++
          ([.httpGet url,
            .create (Join [Join [home, ".local", "reposx"], packageName ++ ".tar.gz"]),
            .copy (Join [Join [home, ".local", "reposx"], packageName ++ ".tar.gz"]) body,
            .mkdirAll (Join [Join [home, ".local", "reposx"], packageName]) 0o755]
            ++ entries.flatMap
              (entryCalls (Join [Join [home, ".local", "reposx"], packageName]))
            ++ [.remove
                (Join [Join [home, ".local", "reposx"], packageName ++ ".tar.gz"])]) := by
        rw [ht]
        simp only [State.setNode_trace, State.log_trace, htr4]
        unfold ensureDir
        rw [htr3]
        simp
      obtain ⟨hdirs, hregs⟩ := extractLoop_ok_fs hl
      refine ⟨home, body, entries, s4, rfl, hurl, hnet, hu, hd, by simp, hx, ht, htr, ?_,
        by rw [ht]; simp, ?_, ?_, ?_⟩
      · rw [htr, List.drop_left]
        have hloc := filter_isGet_of_local
          (entries.flatMap (entryCalls (Join [Join [home, ".local", "reposx"], packageName])))
          (by
            intro c hc
            obtain ⟨e, _, hce⟩ := List.mem_flatMap.1 hc
            exact entryCalls_local _ e c hce)
        simp [List.filter_append, hloc, Call.isGet]
      · rw [ht, State.setNode_fs_ne _ _ (hnotpp _ hdir4)]
        exact hdir4
      · intro e he hd
        rw [ht, State.setNode_fs_ne _ _ (hnotpp _ (hdirs e he hd))]
        exact hdirs e he hd
      · intro before e after hes hreg hlast hne
        rw [ht, State.setNode_fs_ne _ _ hne]
        exact hregs before e after hes hreg hlast

/-- C3, on the example index, where `foo` is listed twice: the first entry is the one
installed. -/
theorem installPackage_success_witness :
    demoIndex.Packages
      = [] ++ ⟨"foo", ⟨⟨"u"⟩⟩, ⟨⟨"v"⟩⟩⟩
          :: [⟨"bar", ⟨⟨""⟩⟩, ⟨⟨"v"⟩⟩⟩, ⟨"foo", ⟨⟨"w"⟩⟩, ⟨⟨"w"⟩⟩⟩] ∧
    archSlot demoEnv.goarch ⟨"foo", ⟨⟨"u"⟩⟩, ⟨⟨"v"⟩⟩⟩ = some "u" ∧
    (installPackage demoEnv "foo" demoIndex emptyStore).1 = .ok () ∧
    (installPackage demoEnv "foo" demoIndex emptyStore).2.trace
      = [.httpGet "u", .create "/h/.local/reposx/foo.tar.gz",
         .copy "/h/.local/reposx/foo.tar.gz" "tgz", .mkdirAll "/h/.local/reposx/foo" 0o755,
         .mkdirAll "/h/.local/reposx/foo/bin" 0o755, .create "/h/.local/reposx/foo/bin/tool",
         .copy "/h/.local/reposx/foo/bin/tool" "#!", .chmod "/h/.local/reposx/foo/bin/tool" 0o755,
         .remove "/h/.local/reposx/foo.tar.gz"] ∧
    ((installPackage demoEnv "foo" demoIndex emptyStore).2.trace.drop
        emptyStore.trace.length).filter Call.isGet = [.httpGet "u"] ∧
    (installPackage demoEnv "foo" demoIndex emptyStore).2.fs "/h/.local/reposx/foo.tar.gz"
      = none ∧
    (installPackage demoEnv "foo" demoIndex emptyStore).2.fs "/h/.local/reposx/foo"
      = some (.dir 0o755) ∧
    (installPackage demoEnv "foo" demoIndex emptyStore).2.fs "/h/.local/reposx/foo/bin/tool"
      = some (.file "#!" 0o755) := by
  have h := (installPackage_success demoEnv "foo" demoIndex [] _ ⟨"foo", ⟨⟨"u"⟩⟩, ⟨⟨"v"⟩⟩⟩ "u"
    emptyStore rfl (by simp) rfl (by decide)).1 "/h" "tgz" demoEntries rfl (by decide) rfl rfl
    (by decide) rfl rfl (by decide) (by decide) rfl
  exact ⟨rfl, by decide, h, by decide, by decide, by decide, by decide, by decide⟩

/-- C4 as stated fails: in the scenario of the specification (`foo` with only its ARM URL,
amd64 host) the resolution succeeds with the empty URL, the download step starts, and
the error `installPackage` returns is the one `http.Get` gives for the empty URL: it is
not a resolution error. -/
theorem installPackage_empty_slot_transport_error :
    installPackage demoEnv "foo" armOnlyIndex freshState
      = (.error emptyURLError,
          ⟨freshState.fs, [.httpGet ""], ["[...] downloading \n"]⟩) ∧
    (httpGet demoEnv "" freshState).1 = .error emptyURLError ∧
    isResolutionError emptyURLError = false :=
  ⟨rfl, rfl, by decide⟩

/-- C4, amended: when the entry found for `packageName` has an empty URL in the slot of
the host's architecture family, `installPackage` returns an error, neither crashing nor
skipping, and does not touch the file system, so the package directory is not created.
The error is not one of the resolution step: if the home directory resolves, the request
for the empty URL is refused by `http.Get` and that error is returned after the one
attempted request; if it does not, the error of `os.UserHomeDir` is returned. -/
theorem installPackage_empty_slot (env : Env) (packageName : String) (packages : Packages)
    (pkg : Package) (s : State)
    (hfind : findPackage packageName packages.Packages = some pkg)
    (hslot : archSlot env.goarch pkg = some "") :
    (∃ err, (installPackage env packageName packages s).1 = .error err) ∧
    (installPackage env packageName packages s).2.fs = s.fs ∧
    (∀ c ∈ (installPackage env packageName packages s).2.trace,
      c ∈ s.trace ∨ c = Call.httpGet "") ∧
    (∀ home, env.home = .ok home →
      installPackage env packageName packages s
        = (.error emptyURLError,
            (s.print ("[...] downloading " ++ "" ++ "\n")).log (.httpGet ""))) ∧
    (∀ err, env.home = .error err →
      installPackage env packageName packages s = (.error err, s)) ∧
    isResolutionError emptyURLError = false := by
  have key : ∀ home, env.home = .ok home →
      installPackage env packageName packages s
        = (.error emptyURLError,
            (s.print ("[...] downloading " ++ "" ++ "\n")).log (.httpGet "")) := by
    intro home hhome
    rw [installPackage_eq s hfind hslot hhome]
    simp [downloadFile, httpGet]
  cases hh : env.home with
  | error err =>
    rw [installPackage_no_home s hfind hslot hh]
    refine ⟨⟨err, rfl⟩, rfl, fun c hc => Or.inl hc, fun home h => by simp at h, ?_, by decide⟩
    intro err2 h2
    simp only [Except.error.injEq] at h2
    rw [h2]
  | ok home =>
    rw [key home hh]
    refine ⟨⟨_, rfl⟩, rfl, ?_, fun _ _ => rfl, fun err h => by simp at h, by decide⟩
    intro c hc
    simpa using hc

/-- C4, the scenario of the specification: `foo` has only its ARM URL, the host is
amd64. -/
theorem installPackage_empty_slot_witness :
    findPackage "foo" armOnlyIndex.Packages
      = some ⟨"foo", ⟨⟨""⟩⟩, ⟨⟨"http://example.org/foo-arm.tar.gz"⟩⟩⟩ ∧
    archSlot demoEnv.goarch ⟨"foo", ⟨⟨""⟩⟩, ⟨⟨"http://example.org/foo-arm.tar.gz"⟩⟩⟩ = some "" ∧
    (installPackage demoEnv "foo" armOnlyIndex freshState).1 = .error emptyURLError ∧
    (installPackage demoEnv "foo" armOnlyIndex freshState).2.fs = freshState.fs ∧
    (installPackage demoEnv "foo" armOnlyIndex freshState).2.trace = [.httpGet ""] :=
  ⟨by decide, by decide,
   by rw [(installPackage_empty_slot demoEnv "foo" armOnlyIndex
      ⟨"foo", ⟨⟨""⟩⟩, ⟨⟨"http://example.org/foo-arm.tar.gz"⟩⟩⟩
      freshState (by decide) (by decide)).2.2.2.1 "/h" rfl],
   (installPackage_empty_slot demoEnv "foo" armOnlyIndex
      ⟨"foo", ⟨⟨""⟩⟩, ⟨⟨"http://example.org/foo-arm.tar.gz"⟩⟩⟩
      freshState (by decide) (by decide)).2.1,
   by decide⟩

/-- C5 as stated fails: a cache file that exists need not be readable.  With a cache file
that holds a valid document but cannot be opened, `downloadAndParseXML(false)` returns
the error of `os.Open`, not the result of parsing the file; and in a store root that
cannot be searched the cache file cannot be stat'ed, the existence check fails, the
download branch runs and a request is made. -/
theorem downloadAndParseXML_cached_unreadable :
    (cachedState "<packages/>").fs "/h/.local/reposx/index.xml"
      = some (.file "<packages/>" 0o644) ∧
    noOpenEnv.decodeXML "<packages/>" = .ok demoIndex ∧
    (downloadAndParseXML noOpenEnv false (cachedState "<packages/>")).1
      = .error "permission denied" ∧
    (downloadAndParseXML lockedEnv false (cachedState "<packages/>")).1
      = .error "permission denied" ∧
    (downloadAndParseXML lockedEnv false (cachedState "<packages/>")).2.trace
      = [.mkdirAll "/h/.local/reposx" 0o755,
         .httpGet "http://93.100.25.80:8080/reposx/index.xml",
         .create "/h/.local/reposx/index.xml"] :=
  ⟨by decide, rfl, rfl, rfl, by decide⟩

/-- C5, amended: in every state in which the cache file `<root>/index.xml` exists (a file
in the directory `<root>`), when the environment lets the `os.MkdirAll` of `ensureDir`,
the `os.Stat`, the `os.Open` and the reading of the cache file through,
`downloadAndParseXML(false)` makes no request, leaves the file system (the cache file
included) as it was, prints nothing, and returns exactly what decoding the cached bytes
gives: the index, or the decoding error, with no download to fall back on; the only call
is the `os.MkdirAll` on the existing root.  When the file can be stat'ed but not opened,
or opened but not read, or when `ensureDir` fails, that error is returned, again without
any request and without any change.  When the file cannot be stat'ed, the call is the
same computation as `downloadAndParseXML(true)`: the request for the index is made. -/
theorem downloadAndParseXML_cached (env : Env) (home content : String) (mode dmode : Nat)
    (s : State) (hhome : env.home = .ok home)
    (hroot : s.fs (storeRoot home) = some (.dir dmode))
    (hcache : s.fs (cachePath home) = some (.file content mode)) :
    (env.fault s.trace (.mkdirAll (storeRoot home) 0o755) = none →
      env.readFault (s.trace ++ [.mkdirAll (storeRoot home) 0o755]) (.stat (cachePath home))
        = none →
      env.readFault (s.trace ++ [.mkdirAll (storeRoot home) 0o755]) (.open (cachePath home))
        = none →
      env.readFault (s.trace ++ [.mkdirAll (storeRoot home) 0o755]) (.read (cachePath home))
        = none →
      downloadAndParseXML env false s
        = (env.decodeXML content, s.log (.mkdirAll (storeRoot home) 0o755))) ∧
    (env.fault s.trace (.mkdirAll (storeRoot home) 0o755) = none →
      env.readFault (s.trace ++ [.mkdirAll (storeRoot home) 0o755]) (.stat (cachePath home))
        = none →
      ∀ err,
        env.readFault (s.trace ++ [.mkdirAll (storeRoot home) 0o755]) (.open (cachePath home))
            = some err ∨
          (env.readFault (s.trace ++ [.mkdirAll (storeRoot home) 0o755])
              (.open (cachePath home)) = none ∧
            env.readFault (s.trace ++ [.mkdirAll (storeRoot home) 0o755])
              (.read (cachePath home)) = some err) →
        downloadAndParseXML env false s
          = (.error err, s.log (.mkdirAll (storeRoot home) 0o755))) ∧
    (∀ err, env.fault s.trace (.mkdirAll (storeRoot home) 0o755) = some err →
      downloadAndParseXML env false s
        = (.error err, s.log (.mkdirAll (storeRoot home) 0o755))) ∧
    (env.fault s.trace (.mkdirAll (storeRoot home) 0o755) = none →
      ∀ err,
        env.readFault (s.trace ++ [.mkdirAll (storeRoot home) 0o755]) (.stat (cachePath home))
          = some err →
        downloadAndParseXML env false s = downloadAndParseXML env true s ∧
        ∃ rest, (downloadAndParseXML env false s).2.trace
          = s.trace ++ Call.mkdirAll (storeRoot home) 0o755
              :: Call.httpGet (base_url ++ "index.xml") :: rest) := by
  simp only [storeRoot, cachePath] at *
  refine ⟨?_, ?_, ?_, ?_⟩
  · intro hmk hstat hopen hread
    unfold downloadAndParseXML getLocalDir ensureDir
    simp only [hhome, MkdirAll_of_dir env _ 0o755 dmode s hmk hroot, Stat, State.log_fs,
      State.log_trace, hstat, hcache, readCachedXML, Open, hopen, decodeFile, readError,
      hread, if_true]
    cases env.decodeXML content <;> rfl
  · intro hmk hstat err hor
    unfold downloadAndParseXML getLocalDir ensureDir
    rcases hor with hopen | ⟨hopen, hread⟩
    · simp only [hhome, MkdirAll_of_dir env _ 0o755 dmode s hmk hroot, Stat, State.log_fs,
        State.log_trace, hstat, hcache, readCachedXML, Open, hopen, if_true]
    · simp only [hhome, MkdirAll_of_dir env _ 0o755 dmode s hmk hroot, Stat, State.log_fs,
        State.log_trace, hstat, hcache, readCachedXML, Open, hopen, decodeFile, readError,
        hread, if_true]
  · intro err hmk
    unfold downloadAndParseXML getLocalDir ensureDir
    simp only [hhome, MkdirAll_of_fault env _ 0o755 s err hmk]
  · intro hmk err hstat
    have heq : downloadAndParseXML env false s = downloadAndParseXML env true s := by
      unfold downloadAndParseXML getLocalDir ensureDir
      simp only [hhome, MkdirAll_of_dir env _ 0o755 dmode s hmk hroot, Stat, State.log_trace,
        hstat, if_true, Bool.true_eq_false, if_false]
    refine ⟨heq, ?_⟩
    rw [heq]
    obtain ⟨rest, h1, _⟩ := downloadFile_calls env (base_url ++ "index.xml")
      (Join [Join [home, ".local", "reposx"], "index.xml"])
      (s.log (.mkdirAll (Join [home, ".local", "reposx"]) 0o755))
    refine ⟨rest, ?_⟩
    unfold downloadAndParseXML getLocalDir ensureDir
    simp only [hhome, MkdirAll_of_dir env _ 0o755 dmode s hmk hroot, fetchXML,
      Bool.true_eq_false, if_false]
    rcases hd : downloadFile env (base_url ++ "index.xml")
      (Join [Join [home, ".local", "reposx"], "index.xml"])
      (s.log (.mkdirAll (Join [home, ".local", "reposx"]) 0o755)) with ⟨r, s2⟩
    rw [hd] at h1
    simp only [State.log_trace, List.append_assoc, List.singleton_append] at h1
    cases r with
    | error err => exact h1
    | ok u =>
      dsimp only
      cases Open env (Join [Join [home, ".local", "reposx"], "index.xml"]) s2 with
      | error err => exact h1
      | ok doc =>
        dsimp only
        cases decodeFile env doc s2 <;> exact h1

/-- C5, amended, on a valid and on a malformed cached document, and on a cache file that
cannot be opened. -/
theorem downloadAndParseXML_cached_witness :
    (cachedState "<packages/>").fs (cachePath "/h") = some (.file "<packages/>" 0o644) ∧
    downloadAndParseXML demoEnv false (cachedState "<packages/>")
      = (.ok demoIndex, (cachedState "<packages/>").log (.mkdirAll "/h/.local/reposx" 0o755)) ∧
    downloadAndParseXML demoEnv false (cachedState "<pack")
      = (.error "EOF", (cachedState "<pack").log (.mkdirAll "/h/.local/reposx" 0o755)) ∧
    downloadAndParseXML noOpenEnv false (cachedState "<packages/>")
      = (.error "permission denied",
          (cachedState "<packages/>").log (.mkdirAll "/h/.local/reposx" 0o755)) :=
  ⟨rfl,
   (downloadAndParseXML_cached demoEnv "/h" "<packages/>" 0o644 0o755
      (cachedState "<packages/>") rfl rfl rfl).1 rfl rfl rfl rfl,
   (downloadAndParseXML_cached demoEnv "/h" "<pack" 0o644 0o755
      (cachedState "<pack") rfl rfl rfl).1 rfl rfl rfl rfl,
   (downloadAndParseXML_cached noOpenEnv "/h" "<packages/>" 0o644 0o755
      (cachedState "<packages/>") rfl rfl rfl).2.1 rfl rfl "permission denied" (Or.inl rfl)⟩

/-- C7: for every listing `os.ReadDir` returns for the store root, `getPackagePaths`
returns the paths `Join(root, name)` of exactly the listed entries that are directories,
in listing order, joined by `:` (so without leading or trailing separator); the result is
the empty string when no listed entry is a directory, whatever plain files are listed,
and `Join(root, a):Join(root, b)` when the directories are `a` and `b`. -/
theorem getPackagePaths_join (env : Env) (home : String) (entries : List DirEntry)
    (hhome : env.home = .ok home)
    (hlist : env.readDir (Join [home, ".local", "reposx"]) = .ok entries) :
    getPackagePaths env
      = .ok (String.intercalate ":"
          ((entries.filter (fun e => e.IsDir)).map
            (fun e => Join [Join [home, ".local", "reposx"], e.Name]))) ∧
    ((∀ e ∈ entries, e.IsDir = false) → getPackagePaths env = .ok "") ∧
    (∀ a b, entries.filter (fun e => e.IsDir) = [a, b] →
      getPackagePaths env
        = .ok (Join [Join [home, ".local", "reposx"], a.Name] ++ ":"
            ++ Join [Join [home, ".local", "reposx"], b.Name])) := by
  have main : getPackagePaths env
      = .ok (String.intercalate ":"
          ((entries.filter (fun e => e.IsDir)).map
            (fun e => Join [Join [home, ".local", "reposx"], e.Name]))) := by
    unfold getPackagePaths getLocalDir
    simp only [hhome, hlist, foldl_dirs, List.nil_append]
  refine ⟨main, ?_, ?_⟩
  · intro hall
    have : entries.filter (fun e => e.IsDir) = [] := by
      apply List.filter_eq_nil_iff.2
      intro e he
      simp [hall e he]
    rw [main, this]
    rfl
  · intro a b hab
    rw [main, hab]
    rfl

/-- C7, on the example store: two package directories and the cached index between them. -/
theorem getPackagePaths_join_witness :
    demoEnv.home = .ok "/h" ∧
    demoEnv.readDir (Join ["/h", ".local", "reposx"])
      = .ok [⟨"a", true⟩, ⟨"index.xml", false⟩, ⟨"b", true⟩] ∧
    getPackagePaths demoEnv = .ok "/h/.local/reposx/a:/h/.local/reposx/b" ∧
    getPackagePaths { demoEnv with readDir := fun _ => .ok [⟨"index.xml", false⟩] } = .ok "" :=
  ⟨rfl, rfl,
   (getPackagePaths_join demoEnv "/h" [⟨"a", true⟩, ⟨"index.xml", false⟩, ⟨"b", true⟩]
      rfl rfl).2.2 ⟨"a", true⟩ ⟨"b", true⟩ (by decide),
   (getPackagePaths_join { demoEnv with readDir := fun _ => .ok [⟨"index.xml", false⟩] }
      "/h" [⟨"index.xml", false⟩] rfl rfl).2.1 (by decide)⟩

/-- C8 as stated fails: a well-formed archive need not bring the directories of its files.
For the archive of a symbolic link, the regular file `sub/file` and the regular file
`after`, extracted into an existing empty directory with nothing refused by the
environment, the link is skipped, the creation of `sub/file` fails because `sub` does not
exist, the call returns that error, and `after`, which follows the skipped entry, is not
extracted. -/
theorem extractTarGz_nested_file :
    nestedEnv.untar "tgz" = .ok ⟨nestedEntries, none⟩ ∧
    (extractTarGz nestedEnv demoArchive "/h/.local/reposx/foo" unpackState).1
      = .error "open /h/.local/reposx/foo/sub/file: no such file or directory" ∧
    (extractTarGz nestedEnv demoArchive "/h/.local/reposx/foo" unpackState).2.fs
      "/h/.local/reposx/foo/after" = none ∧
    (extractTarGz nestedEnv demoArchive "/h/.local/reposx/foo" unpackState).2.trace
      = [.create "/h/.local/reposx/foo/sub/file"] :=
  ⟨rfl, rfl, by decide, by decide⟩

/-- C8, amended: for every archive that decodes to a sequence of tar entries ending in
`io.EOF` and every destination, `extractTarGz` handles the entries in stream order and
stops at the first one that fails: with the entries before `e` extracted, the call ends
with the read error if the header of `e` cannot be read, with the error of `e` in the
state `e` left if the extraction of `e` fails (no later entry is touched), and goes on
with the entries after `e` otherwise.  An entry of a type other than directory and
regular file changes nothing and raises no error, so the call behaves as if such entries
were not in the archive, and succeeds without any change when a readable archive has only
such entries.  A directory entry is extracted exactly when `os.MkdirAll` of
`Join(dest, name)` can succeed (the path is a directory, or it is absent, no file stands
on the way to it and the environment lets the call through); it is then a directory, and
no existing path is changed.  A regular-file entry is extracted exactly when the file can
be created at `Join(dest, name)` (its directory exists, the path is not a directory), the
archive can still be read, the bytes of the entry are complete and the environment lets
the write and the `chmod` through; the path then holds the bytes of the entry with mode
0755; in either case no other path is changed.  A call that succeeds made exactly the
calls of its directories and regular files, in order, and leaves every directory entry a
directory and every regular-file entry that no later entry overwrites a file with its
bytes and mode 0755. -/
theorem extractTarGz_entries (env : Env) (gzipStream : Reader) (bytes destPath : String)
    (entries : List TarEntry) (s : State)
    (hbytes : gzipStream.bytes = .ok bytes)
    (hwf : env.untar bytes = .ok ⟨entries, none⟩) :
    extractTarGz env gzipStream destPath s
      = extractLoop env gzipStream destPath (entries.filter supported) none s ∧
    ((∀ e ∈ entries, supported e = false) → readError env gzipStream s = none →
      extractTarGz env gzipStream destPath s = (.ok (), s)) ∧
    (∀ front e back t1, entries = front ++ e :: back →
      extractLoop env gzipStream destPath front none s = (.ok (), t1) →
      extractTarGz env gzipStream destPath s
        = match readError env gzipStream t1 with
          | some err => (.error err, t1)
          | none =>
            match extractEntry env gzipStream destPath e t1 with
            | (.error err, t2) => (.error err, t2)
            | (.ok (), t2) => extractLoop env gzipStream destPath back none t2) ∧
    (∀ e t1,
      (supported e = false → extractEntry env gzipStream destPath e t1 = (.ok (), t1)) ∧
      (e.header.Typeflag = TypeDir →
        ((extractEntry env gzipStream destPath e t1).1 = .ok ()
          ↔ canMkdirAll env (Join [destPath, e.header.Name]) 0o755 t1 = true) ∧
        ((extractEntry env gzipStream destPath e t1).1 = .ok () →
          isDirNode ((extractEntry env gzipStream destPath e t1).2.fs
            (Join [destPath, e.header.Name])) = true) ∧
        (extractEntry env gzipStream destPath e t1).2.trace
          = t1.trace ++ [.mkdirAll (Join [destPath, e.header.Name]) 0o755] ∧
        (∀ q, t1.fs q ≠ none →
          (extractEntry env gzipStream destPath e t1).2.fs q = t1.fs q)) ∧
      (e.header.Typeflag = TypeReg →
        ((extractEntry env gzipStream destPath e t1).1 = .ok ()
          ↔ canExtractFile env gzipStream (Join [destPath, e.header.Name]) e t1 = true) ∧
        ((extractEntry env gzipStream destPath e t1).1 = .ok () →
          (extractEntry env gzipStream destPath e t1).2
            = extractedFile (Join [destPath, e.header.Name]) e.data t1 ∧
          (extractEntry env gzipStream destPath e t1).2.fs (Join [destPath, e.header.Name])
            = some (.file e.data 0o755)) ∧
        (∀ q, q ≠ Join [destPath, e.header.Name] →
          (extractEntry env gzipStream destPath e t1).2.fs q = t1.fs q))) ∧
    ((extractTarGz env gzipStream destPath s).1 = .ok ()
      ↔ canExtractAll env gzipStream destPath entries s = true) ∧
    (∀ t, extractTarGz env gzipStream destPath s = (.ok (), t) →
      t.trace = s.trace ++ entries.flatMap (entryCalls destPath) ∧
      (∀ e ∈ entries, e.header.Typeflag = TypeDir →
        isDirNode (t.fs (Join [destPath, e.header.Name])) = true) ∧
      (∀ front e back, entries = front ++ e :: back → e.header.Typeflag = TypeReg →
        (∀ e2 ∈ back, e2.header.Typeflag = TypeReg →
          Join [destPath, e2.header.Name] ≠ Join [destPath, e.header.Name]) →
        t.fs (Join [destPath, e.header.Name]) = some (.file e.data 0o755))) := by
  have hx : extractTarGz env gzipStream destPath s
      = extractLoop env gzipStream destPath entries none s :=
    extractTarGz_eq env gzipStream destPath s hbytes hwf
  refine ⟨?_, ?_, ?_, ?_, ?_, ?_⟩
  · rw [hx]
    exact extractLoop_filter _ _ _ _ _ _
  · intro hall hread
    have : entries.filter supported = [] := by
      apply List.filter_eq_nil_iff.2
      intro e he
      simp [hall e he]
    rw [hx, extractLoop_filter, this, extractLoop_nil, hread]
  · intro front e back t1 hsplit hfront
    rw [hx, hsplit, extractLoop_append, hfront]
    simp only [extractLoop_cons]
  · intro e t1
    refine ⟨fun hs => extractEntry_skip env gzipStream destPath e t1 hs, ?_, ?_⟩
    · intro hd
      rw [extractEntry_of_dir _ _ _ _ _ hd]
      exact ⟨MkdirAll_ok_iff _ _ _ _, MkdirAll_dir _ _ _ _, (MkdirAll_trace _ _ _ _).1,
        fun q hq => MkdirAll_frame _ _ _ _ _ hq⟩
    · intro hr
      refine ⟨extractEntry_reg_iff env gzipStream destPath e t1 hr, ?_,
        fun q hq => extractEntry_reg_frame env gzipStream destPath e t1 q hr hq⟩
      intro hok
      have hcan := (extractEntry_reg_iff env gzipStream destPath e t1 hr).1 hok
      rw [extractEntry_of_can hr hcan]
      exact ⟨rfl, by simp [extractedFile]⟩
  · rw [hx]
    exact extractLoop_ok_iff env gzipStream destPath entries s
  · intro t ht
    rw [hx] at ht
    exact ⟨(extractLoop_ok_trace ht).2.1, (extractLoop_ok_fs ht).1, (extractLoop_ok_fs ht).2⟩

/-- C8, amended, on the example archive, extracted into the package directory: the
directory and the file are extracted although a symbolic link stands between them. -/
theorem extractTarGz_entries_witness :
    demoArchive.bytes = .ok "tgz" ∧
    demoEnv.untar "tgz" = .ok ⟨demoEntries, none⟩ ∧
    (extractTarGz demoEnv demoArchive "/h/.local/reposx/foo" unpackState).1 = .ok () ∧
    (extractTarGz demoEnv demoArchive "/h/.local/reposx/foo" unpackState).2.fs
      "/h/.local/reposx/foo/bin" = some (.dir 0o755) ∧
    (extractTarGz demoEnv demoArchive "/h/.local/reposx/foo" unpackState).2.fs
      "/h/.local/reposx/foo/bin/tool" = some (.file "#!" 0o755) ∧
    (extractTarGz demoEnv demoArchive "/h/.local/reposx/foo" unpackState).2.fs
      "/h/.local/reposx/foo/ln" = none ∧
    extractTarGz demoEnv demoArchive "/h/.local/reposx/foo" unpackState
      = extractLoop demoEnv demoArchive "/h/.local/reposx/foo"
          [⟨⟨"bin", TypeDir⟩, "", none⟩, ⟨⟨"bin/tool", TypeReg⟩, "#!", none⟩] none unpackState ∧
    ((extractEntry demoEnv demoArchive "/h/.local/reposx/foo" ⟨⟨"sub/file", TypeReg⟩, "x", none⟩
        unpackState).1 = .ok ()
      ↔ canExtractFile demoEnv demoArchive (Join ["/h/.local/reposx/foo", "sub/file"])
          ⟨⟨"sub/file", TypeReg⟩, "x", none⟩ unpackState = true) ∧
    canExtractFile demoEnv demoArchive (Join ["/h/.local/reposx/foo", "sub/file"])
      ⟨⟨"sub/file", TypeReg⟩, "x", none⟩ unpackState = false ∧
    canExtractAll demoEnv demoArchive "/h/.local/reposx/foo" demoEntries unpackState = true ∧
    canExtractAll nestedEnv demoArchive "/h/.local/reposx/foo" nestedEntries unpackState
      = false :=
  ⟨rfl, rfl, rfl, by decide, by decide, by decide,
   (extractTarGz_entries demoEnv demoArchive "tgz" "/h/.local/reposx/foo" demoEntries
      unpackState rfl rfl).1,
   ((extractTarGz_entries demoEnv demoArchive "tgz" "/h/.local/reposx/foo" demoEntries
      unpackState rfl rfl).2.2.2.1 ⟨⟨"sub/file", TypeReg⟩, "x", none⟩ unpackState).2.2 rfl |>.1,
   by decide, by decide, by decide⟩

/-- C9 as stated fails: `update` followed by a further argument is not rejected; the
index is fetched (one request is made) and the exit status is 0. -/
theorem main_update_extra_argument :
    (main demoEnv ["reposx", "update", "extra"] freshState).1 = 0 ∧
    (main demoEnv ["reposx", "update", "extra"] freshState).2.trace
      = [.mkdirAll "/h/.local/reposx" 0o755, .httpGet "http://93.100.25.80:8080/reposx/index.xml",
         .create "/h/.local/reposx/index.xml", .copy "/h/.local/reposx/index.xml" "<packages/>"] ∧
    (main demoEnv ["reposx", "update", "extra"] freshState).2.stdout
      = ["[...] downloading http://93.100.25.80:8080/reposx/index.xml\n",
         "[...] Package list updated successfully\n"] := by
  decide

/-- C9, amended: for every argument vector and every outcome of the operations, `main`
exits with status 0 or 1.  With no command it prints the usage text; with a command
other than `update`, `install` and `paths` it prints `unknown command: <command>`; with
`install` followed by anything but exactly one package name it prints
`usage: install <package>`; in these three cases it exits with status 1 and has made no
call at all (the state differs only in what was printed).  `update` and `paths` do not
look at what follows the command.  `update` exits with 0 exactly when
`downloadAndParseXML(true)` succeeds, `install <p>` exactly when
`downloadAndParseXML(false)` and then `installPackage` succeed, `paths` exactly when
`getPackagePaths` succeeds; an error of an operation gives status 1. -/
theorem main_exit (env : Env) (args : List String) (s : State) :
    ((main env args s).1 = 0 ∨ (main env args s).1 = 1) ∧
    (args.length < 2 → main env args s = (1, { s with stdout := s.stdout ++ usageText })) ∧
    (∀ prog command rest, args = prog :: command :: rest →
      command ≠ "update" → command ≠ "install" → command ≠ "paths" →
      main env args s = (1, s.print ("unknown command: " ++ command ++ "\n"))) ∧
    (∀ prog rest, args = prog :: "install" :: rest → rest.length ≠ 1 →
      main env args s = (1, s.print "usage: install <package>\n")) ∧
    (∀ prog rest, args = prog :: "update" :: rest →
      ((main env args s).1 = 0 ↔ ∃ packages, (downloadAndParseXML env true s).1 = .ok packages) ∧
      (main env args s).2.trace = (downloadAndParseXML env true s).2.trace) ∧
    (∀ prog packageName, args = [prog, "install", packageName] →
      ((main env args s).1 = 0 ↔ ∃ packages s1,
        downloadAndParseXML env false s = (.ok packages, s1) ∧
        (installPackage env packageName packages s1).1 = .ok ())) ∧
    (∀ prog rest, args = prog :: "paths" :: rest →
      ((main env args s).1 = 0 ↔ ∃ paths, getPackagePaths env = .ok paths) ∧
      (main env args s).2.trace = s.trace ∧ (main env args s).2.fs = s.fs) := by
  refine ⟨?_, ?_, ?_, ?_, ?_, ?_, ?_⟩
  · unfold main
    repeat' split
    all_goals simp
  · intro h
    match args, h with
    | [], _ => rfl
    | [_], _ => rfl
  · rintro prog command rest rfl h1 h2 h3
    simp [main, h1, h2, h3]
  · rintro prog rest rfl hlen
    match rest, hlen with
    | [], _ => simp [main]
    | _ :: _ :: _, _ => simp [main]
  · rintro prog rest rfl
    simp only [main, if_true]
    rcases downloadAndParseXML env true s with ⟨r, s1⟩
    cases r <;> simp
  · rintro prog packageName rfl
    simp only [main, if_true, if_false, String.reduceEq]
    rcases downloadAndParseXML env false s with ⟨r, s1⟩
    cases r with
    | error err => simp
    | ok packages =>
      rcases hi : installPackage env packageName packages s1 with ⟨r2, s2⟩
      cases r2 with
      | error err =>
        dsimp only
        rw [hi]
        constructor
        · intro h
          simp at h
        · rintro ⟨pk, t1, h, h2⟩
          simp only [Prod.mk.injEq, Except.ok.injEq] at h
          obtain ⟨rfl, rfl⟩ := h
          rw [hi] at h2
          simp at h2
      | ok u =>
        dsimp only
        rw [hi]
        exact ⟨fun _ => ⟨packages, s1, rfl, by rw [hi]⟩, fun _ => rfl⟩
  · rintro prog rest rfl
    simp only [main, if_true, if_false, String.reduceEq]
    cases getPackagePaths env <;> simp

/-- C9, amended, on the example environment: a missing package name and an unknown
command are rejected without any call, `paths` succeeds. -/
theorem main_exit_witness :
    main demoEnv ["reposx", "install"] freshState
      = (1, freshState.print "usage: install <package>\n") ∧
    main demoEnv ["reposx", "remove", "foo"] freshState
      = (1, freshState.print "unknown command: remove\n") ∧
    main demoEnv ["reposx"] freshState = (1, ⟨freshState.fs, [], usageText⟩) ∧
    ((main demoEnv ["reposx", "paths"] freshState).1 = 0 ↔
      ∃ paths, getPackagePaths demoEnv = .ok paths) :=
  ⟨(main_exit demoEnv ["reposx", "install"] freshState).2.2.2.1 "reposx" [] rfl (by decide),
   (main_exit demoEnv ["reposx", "remove", "foo"] freshState).2.2.1 "reposx" "remove" ["foo"] rfl
     (by decide) (by decide) (by decide),
   (main_exit demoEnv ["reposx"] freshState).2.1 (by decide),
   ((main_exit demoEnv ["reposx", "paths"] freshState).2.2.2.2.2.2 "reposx" [] rfl).1⟩

/-- C10: for an install that found its entry, its URL and the home directory, `os.Remove`
of the archive `<root>/<name>.tar.gz` is among the calls made if and only if the
download, the opening of the archive, the creation of the package directory and the
extraction all succeeded.  When the creation of the package directory fails, the install
returns that error in the state that step left, and the archive is still there, holding
the downloaded body.  When the extraction fails, the install returns that error in the
state the extraction left (nothing is rolled back), the archive is still a file (holding
the downloaded body unless an entry of the archive was written over it) and the package
directory `<root>/<name>` is still a directory.  When all four succeed, the outcome of
the install is the outcome of the removal: if the environment lets it through, the
install succeeds, the archive is gone and nothing else is changed; if not, the install
returns the error of the removal and the archive stays.  Hence, after a download that
succeeded, the archive is gone exactly when the install returned without error. -/
theorem installPackage_cleanup (env : Env) (packageName : String) (packages : Packages)
    (pkg : Package) (url home pp ep : String) (s : State)
    (hfind : findPackage packageName packages.Packages = some pkg)
    (hslot : archSlot env.goarch pkg = some url) (hhome : env.home = .ok home)
    (hpp : pp = Join [Join [home, ".local", "reposx"], packageName ++ ".tar.gz"])
    (hep : ep = Join [Join [home, ".local", "reposx"], packageName]) :
    (∃ cs, (installPackage env packageName packages s).2.trace = s.trace ++ cs ∧
      (Call.remove pp ∈ cs ↔
        ∃ s1 file s3 s4, downloadFile env url pp s = (.ok (), s1) ∧
          Open env pp (s1.print ("[...] extracting " ++ pp ++ "\n")) = .ok file ∧
          ensureDir env ep (s1.print ("[...] extracting " ++ pp ++ "\n")) = (.ok (), s3) ∧
          extractTarGz env file ep s3 = (.ok (), s4))) ∧
    (∀ s1 file err s3, downloadFile env url pp s = (.ok (), s1) →
      Open env pp (s1.print ("[...] extracting " ++ pp ++ "\n")) = .ok file →
      ensureDir env ep (s1.print ("[...] extracting " ++ pp ++ "\n")) = (.error err, s3) →
      installPackage env packageName packages s = (.error err, s3) ∧
      ∃ body, env.net url = .ok ⟨body, none⟩ ∧
        s3.fs pp = some (.file body (createMode pp s))) ∧
    (∀ s1 file s3 err s4, downloadFile env url pp s = (.ok (), s1) →
      Open env pp (s1.print ("[...] extracting " ++ pp ++ "\n")) = .ok file →
      ensureDir env ep (s1.print ("[...] extracting " ++ pp ++ "\n")) = (.ok (), s3) →
      extractTarGz env file ep s3 = (.error err, s4) →
      installPackage env packageName packages s = (.error err, s4) ∧
      isFileNode (s4.fs pp) = true ∧ isDirNode (s4.fs ep) = true ∧
      ∃ body, env.net url = .ok ⟨body, none⟩ ∧
        ((∀ stream, env.untar body = .ok stream → ∀ e ∈ stream.entries,
            e.header.Typeflag = TypeReg → Join [ep, e.header.Name] ≠ pp) →
          s4.fs pp = some (.file body (createMode pp s)))) ∧
    (∀ s1 file s3 s4, downloadFile env url pp s = (.ok (), s1) →
      Open env pp (s1.print ("[...] extracting " ++ pp ++ "\n")) = .ok file →
      ensureDir env ep (s1.print ("[...] extracting " ++ pp ++ "\n")) = (.ok (), s3) →
      extractTarGz env file ep s3 = (.ok (), s4) →
      installPackage env packageName packages s = Remove env pp s4 ∧
      (env.fault s4.trace (.remove pp) = none →
        installPackage env packageName packages s
          = (.ok (), (s4.log (.remove pp)).setNode pp none) ∧
        (installPackage env packageName packages s).2.fs pp = none ∧
        ∀ q, q ≠ pp → (installPackage env packageName packages s).2.fs q = s4.fs q) ∧
      (∀ err, env.fault s4.trace (.remove pp) = some err →
        installPackage env packageName packages s = (.error err, s4.log (.remove pp)) ∧
        isFileNode ((installPackage env packageName packages s).2.fs pp) = true)) ∧
    (∀ s1, downloadFile env url pp s = (.ok (), s1) →
      ((installPackage env packageName packages s).2.fs pp = none
        ↔ (installPackage env packageName packages s).1 = .ok ())) := by
  have hget : ∀ p, Call.httpGet url ≠ Call.remove p := by intro p; simp
  -- what a successful download leaves, and what the later steps keep of it
  have hdl : ∀ s1, downloadFile env url pp s = (.ok (), s1) →
      ∃ body, env.net url = .ok ⟨body, none⟩ ∧
        s1.fs pp = some (.file body (createMode pp s)) := by
    intro s1 hd
    obtain ⟨body, _, hnet, _, _, rfl⟩ := downloadFile_ok hd
    exact ⟨body, hnet, by simp⟩
  have hopened : ∀ (s1 : State) (file : Reader) (body : String), s1.fs pp = some (.file body (createMode pp s)) →
      Open env pp (s1.print ("[...] extracting " ++ pp ++ "\n")) = .ok file →
      file = ⟨pp, .ok body⟩ := by
    intro s1 file body hfs ho
    rw [Open_of_file env body (createMode pp s) (by simpa using hfs)] at ho
    split at ho
    · simp at ho
    · simpa using ho.symm
  have hmk : ∀ (s1 : State) (r3 : Except String Unit) (s3 : State), ensureDir env ep (s1.print ("[...] extracting " ++ pp ++ "\n"))
      = (r3, s3) → s1.fs pp ≠ none → s3.fs pp = s1.fs pp := by
    intro s1 r3 s3 he hex
    have := MkdirAll_frame env ep 0o755 (s1.print ("[...] extracting " ++ pp ++ "\n")) pp
      (by simpa using hex)
    unfold ensureDir at he
    rw [he] at this
    simpa using this
  have hfour : ∀ (s1 : State) (file : Reader) (s3 : State) (r4 : Except String Unit)
      (s4 : State), downloadFile env url pp s = (.ok (), s1) →
      Open env pp (s1.print ("[...] extracting " ++ pp ++ "\n")) = .ok file →
      ensureDir env ep (s1.print ("[...] extracting " ++ pp ++ "\n")) = (.ok (), s3) →
      extractTarGz env file ep s3 = (r4, s4) →
      isFileNode (s4.fs pp) = true ∧ isDirNode (s4.fs ep) = true := by
    intro s1 file s3 r4 s4 hd ho he hx
    obtain ⟨body, _, hfs⟩ := hdl s1 hd
    have h3 := hmk s1 _ s3 he (by simp [hfs])
    have hg := extractTarGz_grows env file ep s3
    rw [hx] at hg
    have hdir := MkdirAll_dir env ep 0o755 (s1.print ("[...] extracting " ++ pp ++ "\n"))
    unfold ensureDir at he
    rw [he] at hdir
    exact ⟨hg.files _ (by rw [h3, hfs]; rfl), hg.dirs _ (hdir rfl)⟩
  have hcases := installPackage_cases s hfind hslot hhome hpp hep
  refine ⟨?_, ?_, ?_, ?_, ?_⟩
  · obtain ⟨r0, h0, hl0⟩ := downloadFile_calls env url pp s
    have hn0 : Call.remove pp ∉ Call.httpGet url :: r0 := by
      intro hmem
      rcases List.mem_cons.1 hmem with h | h
      · exact hget pp h.symm
      · exact Call.isLocal_ne_remove (hl0 _ h) pp rfl
    rcases hcases with
      ⟨err, s1, hd, h⟩ | ⟨s1, err, hd, ho, h⟩ | ⟨s1, file, err, s3, hd, ho, he, h⟩ |
      ⟨s1, file, s3, err, s4, hd, ho, he, hx, h⟩ | ⟨s1, file, s3, s4, hd, ho, he, hx, h⟩
    · rw [hd] at h0
      refine ⟨_, by rw [h]; exact h0, ?_⟩
      constructor
      · intro hmem; exact absurd hmem hn0
      · rintro ⟨t1, f, t3, t4, hd2, _⟩
        rw [hd] at hd2; simp at hd2
    · rw [hd] at h0
      refine ⟨_, by rw [h]; exact h0, ?_⟩
      constructor
      · intro hmem; exact absurd hmem hn0
      · rintro ⟨t1, f, t3, t4, hd2, ho2, _⟩
        rw [hd] at hd2
        simp only [Prod.mk.injEq, true_and] at hd2
        subst hd2
        rw [ho] at ho2; simp at ho2
    · rw [hd] at h0
      obtain ⟨r3, h3, hl3⟩ := (ensureDir_grows env ep
        (s1.print ("[...] extracting " ++ pp ++ "\n"))).trace
      rw [he] at h3
      simp only [State.print_trace] at h3 h0
      refine ⟨Call.httpGet url :: r0 ++ r3, by rw [h]; simp [h3, h0], ?_⟩
      constructor
      · intro hmem
        rcases List.mem_append.1 hmem with hm | hm
        · exact absurd hm hn0
        · exact absurd rfl (Call.isLocal_ne_remove (hl3 _ hm) pp)
      · rintro ⟨t1, f, t3, t4, hd2, ho2, he2, _⟩
        rw [hd] at hd2
        simp only [Prod.mk.injEq, true_and] at hd2
        subst hd2
        rw [he] at he2; simp at he2
    · rw [hd] at h0
      obtain ⟨r3, h3, hl3⟩ := (ensureDir_grows env ep
        (s1.print ("[...] extracting " ++ pp ++ "\n"))).trace
      rw [he] at h3
      obtain ⟨r4, h4, hl4⟩ := (extractTarGz_grows env file ep s3).trace
      rw [hx] at h4
      simp only [State.print_trace] at h3 h0 h4
      refine ⟨Call.httpGet url :: r0 ++ r3 ++ r4, by rw [h]; simp [h4, h3, h0], ?_⟩
      constructor
      · intro hmem
        rcases List.mem_append.1 hmem with hm | hm
        · rcases List.mem_append.1 hm with hm | hm
          · exact absurd hm hn0
          · exact absurd rfl (Call.isLocal_ne_remove (hl3 _ hm) pp)
        · exact absurd rfl (Call.isLocal_ne_remove (hl4 _ hm) pp)
      · rintro ⟨t1, f, t3, t4, hd2, ho2, he2, hx2⟩
        rw [hd] at hd2
        simp only [Prod.mk.injEq, true_and] at hd2
        subst hd2
        rw [ho] at ho2
        simp only [Except.ok.injEq] at ho2
        subst ho2
        rw [he] at he2
        simp only [Prod.mk.injEq, true_and] at he2
        subst he2
        rw [hx] at hx2; simp at hx2
    · rw [hd] at h0
      obtain ⟨r3, h3, hl3⟩ := (ensureDir_grows env ep
        (s1.print ("[...] extracting " ++ pp ++ "\n"))).trace
      rw [he] at h3
      obtain ⟨r4, h4, hl4⟩ := (extractTarGz_grows env file ep s3).trace
      rw [hx] at h4
      simp only [State.print_trace] at h3 h0 h4
      refine ⟨Call.httpGet url :: r0 ++ r3 ++ r4 ++ [Call.remove pp],
        by rw [h]; simp [(Remove_trace env pp s4).1, h4, h3, h0], ?_⟩
      constructor
      · intro _
        exact ⟨s1, file, s3, s4, hd, ho, he, hx⟩
      · intro _
        simp
  · intro s1 file err s3 hd ho he
    refine ⟨?_, ?_⟩
    · subst hpp hep
      rw [installPackage_eq s hfind hslot hhome]
      simp only [hd, ho, he]
    · obtain ⟨body, hnet, hfs⟩ := hdl s1 hd
      exact ⟨body, hnet, by rw [hmk s1 _ s3 he (by simp [hfs]), hfs]⟩
  · intro s1 file s3 err s4 hd ho he hx
    obtain ⟨hf4, hd4⟩ := hfour s1 file s3 _ s4 hd ho he hx
    refine ⟨?_, hf4, hd4, ?_⟩
    · subst hpp hep
      rw [installPackage_eq s hfind hslot hhome]
      simp only [hd, ho, he, hx]
    · obtain ⟨body, hnet, hfs⟩ := hdl s1 hd
      refine ⟨body, hnet, ?_⟩
      intro hno
      have hfile := hopened s1 file body hfs ho
      subst hfile
      have h3 := hmk s1 _ s3 he (by simp [hfs])
      have hfr := extractTarGz_frame env ⟨pp, .ok body⟩ ep s3 pp (by rw [h3, hfs]; simp)
        (by
          intro bytes stream hb hu
          simp only [Except.ok.injEq] at hb
          subst hb
          exact hno stream hu)
      rw [hx] at hfr
      dsimp only at hfr
      rw [hfr, h3, hfs]
  · intro s1 file s3 s4 hd ho he hx
    obtain ⟨hf4, _⟩ := hfour s1 file s3 _ s4 hd ho he hx
    have hex : s4.fs pp ≠ none := by
      intro h
      rw [h] at hf4
      simp [isFileNode] at hf4
    have heq : installPackage env packageName packages s = Remove env pp s4 := by
      subst hpp hep
      rw [installPackage_eq s hfind hslot hhome]
      simp only [hd, ho, he, hx]
    refine ⟨heq, ?_, ?_⟩
    · intro hrm
      rw [heq, Remove_of_exists hex hrm]
      refine ⟨rfl, by simp, ?_⟩
      intro q hq
      simp [State.setNode_fs, hq]
    · intro err hrm
      have : Remove env pp s4 = (.error err, s4.log (.remove pp)) := by
        simp [Remove, hrm]
      rw [heq, this]
      exact ⟨rfl, hf4⟩
  · intro s1 hd
    obtain ⟨body, _, hfs⟩ := hdl s1 hd
    rcases hcases with
      ⟨err, t1, hd2, h⟩ | ⟨t1, err, hd2, ho, h⟩ | ⟨t1, file, err, s3, hd2, ho, he, h⟩ |
      ⟨t1, file, s3, err, s4, hd2, ho, he, hx, h⟩ | ⟨t1, file, s3, s4, hd2, ho, he, hx, h⟩
    · rw [hd] at hd2; simp at hd2
    · rw [hd] at hd2
      simp only [Prod.mk.injEq, true_and] at hd2
      subst hd2
      rw [h]
      simp [hfs]
    · rw [hd] at hd2
      simp only [Prod.mk.injEq, true_and] at hd2
      subst hd2
      rw [h]
      simp [hmk s1 _ s3 he (by simp [hfs]), hfs]
    · rw [hd] at hd2
      simp only [Prod.mk.injEq, true_and] at hd2
      subst hd2
      obtain ⟨hf4, _⟩ := hfour s1 file s3 _ s4 hd ho he hx
      rw [h]
      constructor
      · intro hnone
        dsimp only at hnone
        rw [hnone] at hf4
        simp [isFileNode] at hf4
      · intro hok
        simp at hok
    · rw [hd] at hd2
      simp only [Prod.mk.injEq, true_and] at hd2
      subst hd2
      obtain ⟨hf4, _⟩ := hfour s1 file s3 _ s4 hd ho he hx
      have hex : s4.fs pp ≠ none := by
        intro h
        rw [h] at hf4
        simp [isFileNode] at hf4
      rw [h]
      cases hrm : env.fault s4.trace (.remove pp) with
      | none =>
        rw [Remove_of_exists hex hrm]
        simp
      | some err =>
        have : Remove env pp s4 = (.error err, s4.log (.remove pp)) := by
          simp [Remove, hrm]
        rw [this]
        constructor
        · intro hnone
          exact absurd hnone hex
        · intro hok
          simp at hok

/-- C10, on the example repository.  With a file system that refuses `chmod` the
extraction stops at the first regular file: the install returns that error, the archive
is not removed and the package directory stays as the extraction left it.  With an
archive whose entry is written over the archive itself the extraction fails when the
archive is read again: the install returns that error and the archive stays.  With an
archive whose regular file is cut short the file is left with the bytes that were read
and mode 0666, and the archive stays.  With a file system that refuses `remove` every
step before the clean-up succeeds, the install returns the error of the removal and the
archive stays.  With nothing refused the archive is gone. -/
theorem installPackage_cleanup_witness :
    (installPackage noChmodEnv "foo" demoIndex emptyStore).1 = .error "operation not permitted" ∧
    (installPackage noChmodEnv "foo" demoIndex emptyStore).2.fs "/h/.local/reposx/foo.tar.gz"
      = some (.file "tgz" 0o666) ∧
    isDirNode ((installPackage noChmodEnv "foo" demoIndex emptyStore).2.fs
      "/h/.local/reposx/foo") = true ∧
    (installPackage noChmodEnv "foo" demoIndex emptyStore).2.fs "/h/.local/reposx/foo/bin/tool"
      = some (.file "#!" 0o666) ∧
    (installPackage noChmodEnv "foo" demoIndex emptyStore).2.trace
      = [.httpGet "u", .create "/h/.local/reposx/foo.tar.gz",
         .copy "/h/.local/reposx/foo.tar.gz" "tgz", .mkdirAll "/h/.local/reposx/foo" 0o755,
         .mkdirAll "/h/.local/reposx/foo/bin" 0o755, .create "/h/.local/reposx/foo/bin/tool",
         .copy "/h/.local/reposx/foo/bin/tool" "#!",
         .chmod "/h/.local/reposx/foo/bin/tool" 0o755] ∧
    (installPackage selfEnv "foo" demoIndex emptyStore).1 = .error "unexpected EOF" ∧
    isFileNode ((installPackage selfEnv "foo" demoIndex emptyStore).2.fs
      "/h/.local/reposx/foo.tar.gz") = true ∧
    Call.remove "/h/.local/reposx/foo.tar.gz"
      ∉ (installPackage selfEnv "foo" demoIndex emptyStore).2.trace ∧
    (installPackage cutEnv "foo" demoIndex emptyStore).1 = .error "unexpected EOF" ∧
    (installPackage cutEnv "foo" demoIndex emptyStore).2.fs "/h/.local/reposx/foo/bin/tool"
      = some (.file "#" 0o666) ∧
    (installPackage cutEnv "foo" demoIndex emptyStore).2.fs "/h/.local/reposx/foo.tar.gz"
      = some (.file "tgz" 0o666) ∧
    (installPackage noRemoveEnv "foo" demoIndex emptyStore).1 = .error "operation not permitted" ∧
    (installPackage noRemoveEnv "foo" demoIndex emptyStore).2.fs "/h/.local/reposx/foo.tar.gz"
      = some (.file "tgz" 0o666) ∧
    (installPackage demoEnv "foo" demoIndex emptyStore).1 = .ok () ∧
    (installPackage demoEnv "foo" demoIndex emptyStore).2.fs "/h/.local/reposx/foo.tar.gz"
      = none := by
  have h := (installPackage_cleanup noChmodEnv "foo" demoIndex ⟨"foo", ⟨⟨"u"⟩⟩, ⟨⟨"v"⟩⟩⟩ "u" "/h"
    "/h/.local/reposx/foo.tar.gz" "/h/.local/reposx/foo" emptyStore
    (by decide) (by decide) rfl (by decide) (by decide)).2.2.1 _ _ _ "operation not permitted" _
    rfl rfl rfl rfl
  have h1 := (installPackage_cleanup selfEnv "foo" demoIndex ⟨"foo", ⟨⟨"u"⟩⟩, ⟨⟨"v"⟩⟩⟩ "u" "/h"
    "/h/.local/reposx/foo.tar.gz" "/h/.local/reposx/foo" emptyStore
    (by decide) (by decide) rfl (by decide) (by decide)).2.2.1 _ _ _ "unexpected EOF" _
    rfl rfl rfl rfl
  have h2 := ((installPackage_cleanup noRemoveEnv "foo" demoIndex ⟨"foo", ⟨⟨"u"⟩⟩, ⟨⟨"v"⟩⟩⟩ "u"
    "/h" "/h/.local/reposx/foo.tar.gz" "/h/.local/reposx/foo" emptyStore
    (by decide) (by decide) rfl (by decide) (by decide)).2.2.2.1 _ _ _ _ rfl rfl rfl rfl).2.2
    "operation not permitted" rfl
  have h3 := ((installPackage_cleanup demoEnv "foo" demoIndex ⟨"foo", ⟨⟨"u"⟩⟩, ⟨⟨"v"⟩⟩⟩ "u"
    "/h" "/h/.local/reposx/foo.tar.gz" "/h/.local/reposx/foo" emptyStore
    (by decide) (by decide) rfl (by decide) (by decide)).2.2.2.1 _ _ _ _ rfl rfl rfl rfl).2.1
    rfl
  refine ⟨?_, by decide, ?_, by decide, by decide, ?_, ?_, by decide, rfl, by decide,
    by decide, ?_, by decide, ?_, h3.2.1⟩
  · rw [h.1]
  · rw [h.1]; exact h.2.2.1
  · rw [h1.1]
  · rw [h1.1]; exact h1.2.1
  · rw [h2.1]
  · rw [h3.1]

end Reposx
